import Mathlib

/-!
Verification of the LiveHomeBlenderScripts pipeline
(`src/LiveHome3dFbxCleanupAndExport.py`).

This file gives a shallow embedding of the name-driven scene-reorganisation
and collision pipeline of the Blender script, and settles the claims
C1..C10 against it.  Numeric scene data (locations, vertices, matrices) is
modelled exactly, over `ℚ` where division occurs (the recentering mean) and
over `ℤ` elsewhere; Blender host state (collections, vertex groups,
parenting, names) is modelled as explicit data.  Python exceptions are modelled with
`Except`; a raised exception propagates exactly as in the source (there is no
`try`/`except` around any geometry call in the source).
-/

namespace LiveHome

/-! ## Collections (Blender collection membership; C9)

Models `remove_from_all_collections`, `remove_from_collection`,
`create_collection_if_not_exist` and `set_parent_collection`
(script lines 1219-1239).  A collection store is an association list from
collection name to the list of object names linked into it, in creation
order; Blender keeps collection names unique, which callers assume as a
`Nodup` hypothesis. -/

structure CollState where
  colls : List (String × List String)
  deriving DecidableEq

/-- `remove_from_collection(ob, collection)`: unlink `ob` from one collection
(the source guards on membership; unconditional filtering is equivalent). -/
def removeFromCollection (c : String × List String) (ob : String) :
    String × List String :=
  (c.1, c.2.filter (fun o => o ≠ ob))

/-- `remove_from_all_collections(ob)`: unlink `ob` from every collection it
belongs to. -/
def removeFromAllCollections (st : CollState) (ob : String) : CollState :=
  ⟨st.colls.map (fun c => removeFromCollection c ob)⟩

/-- `create_collection_if_not_exist(collection_name)`: append a fresh, empty
collection if no collection of that name exists. -/
def createCollectionIfNotExist (st : CollState) (c : String) : CollState :=
  if c ∈ st.colls.map (fun e => e.1) then st else ⟨st.colls ++ [(c, [])]⟩

/-- Link `ob` into the collection named `c` (Blender
`collections[c].objects.link`). -/
def linkToCollection (st : CollState) (c : String) (ob : String) : CollState :=
  ⟨st.colls.map (fun e => if e.1 = c then (e.1, e.2 ++ [ob]) else e)⟩

/-- `set_parent_collection(ob, collection_name)` (script lines 1236-1239):
remove from all collections, create the target if missing, then link. -/
def setParentCollection (st : CollState) (ob : String) (c : String) :
    CollState :=
  linkToCollection (createCollectionIfNotExist (removeFromAllCollections st ob) c) c ob

/-- The names of the collections an object belongs to. -/
def memberships (st : CollState) (ob : String) : List String :=
  (st.colls.filter (fun e => ob ∈ e.2)).map (fun e => e.1)

/-! ## Meshes and `join_objects` (script lines 991-1033; C10) -/

/-- A mesh object: a name, vertex positions, and its vertex groups
(each vertex group is a name plus the indices of the vertices it contains). -/
structure MeshObj where
  name : String
  verts : List (ℚ × ℚ × ℚ)
  vgroups : List (String × List ℕ)
  deriving DecidableEq

/-- The name-stashing step of `join_objects`: add a vertex group named after
the object, containing every vertex (script lines 1013-1021). -/
def tagWithName (ob : MeshObj) : MeshObj :=
  { ob with vgroups := ob.vgroups ++ [(ob.name, List.range ob.verts.length)] }

/-- Blender `object.join()` of `b` into active object `a`: vertices of `b`
are appended after those of `a`, and `b`'s vertex groups carry over with
their vertex indices shifted past `a`'s vertices. -/
def mergeTwo (a b : MeshObj) : MeshObj :=
  { name := a.name
    verts := a.verts ++ b.verts
    vgroups := a.vgroups ++ b.vgroups.map (fun g => (g.1, g.2.map (fun i => i + a.verts.length))) }

/-- `join_objects(objects)`: `None` on an empty list; the lone object,
untouched, on a one-element list; otherwise tag every object with a vertex
group named after it, then join all of them into the first (the active
object).  The second component is the list of objects that exist afterwards
in place of the inputs (Blender's join consumes the non-active inputs). -/
def joinObjects (objects : List MeshObj) : Option MeshObj × List MeshObj :=
  match objects with
  | [] => (none, [])
  | [ob] => (some ob, [ob])
  | first :: rest =>
      let joined := (rest.map tagWithName).foldl mergeTwo (tagWithName first)
      (some joined, [joined])

/-- Sum of vertex counts of the first `i` objects: the index offset at which
object `i`'s vertices start inside the joined mesh. -/
def vertOffset (objects : List MeshObj) (i : ℕ) : ℕ :=
  ((objects.take i).map (fun o => o.verts.length)).sum

lemma foldl_mergeTwo_verts (l : List MeshObj) (a : MeshObj) :
    (l.foldl mergeTwo a).verts = a.verts ++ (l.map (fun o => o.verts)).flatten := by
  induction l generalizing a with
  | nil => simp
  | cons b bs ih => simp [ih, mergeTwo, List.append_assoc]

lemma foldl_mergeTwo_name (l : List MeshObj) (a : MeshObj) :
    (l.foldl mergeTwo a).name = a.name := by
  induction l generalizing a with
  | nil => rfl
  | cons b bs ih => simp [ih, mergeTwo]

/-- Within a fold of `mergeTwo`, every vertex group of every input survives,
shifted by the total vertex count that precedes that input. -/
lemma foldl_mergeTwo_vgroup_mem (l : List MeshObj) (a : MeshObj) (g : String × List ℕ) :
    g ∈ a.vgroups → g ∈ (l.foldl mergeTwo a).vgroups := by
  induction l generalizing a with
  | nil => exact fun h => h
  | cons b bs ih =>
      intro h
      exact ih _ (List.mem_append_left _ h)

lemma foldl_mergeTwo_vgroup_shift (l : List MeshObj) (a b : MeshObj)
    (g : String × List ℕ) (hb : b ∈ l) (hg : g ∈ b.vgroups) :
    ∃ off : ℕ, (g.1, g.2.map (fun i => i + off)) ∈ (l.foldl mergeTwo a).vgroups := by
  induction l generalizing a with
  | nil => cases hb
  | cons c cs ih =>
      rcases List.mem_cons.mp hb with hbc | hbl
      · subst hbc
        refine ⟨a.verts.length, ?_⟩
        exact foldl_mergeTwo_vgroup_mem cs (mergeTwo a b) _
          (List.mem_append_right _ (List.mem_map.mpr ⟨g, hg, rfl⟩))
      · exact ih _ hbl

lemma removeFromAll_not_mem (st : CollState) (ob : String) :
    ∀ e ∈ (removeFromAllCollections st ob).colls, ob ∉ e.2 := by
  intro e he
  simp only [removeFromAllCollections, List.mem_map] at he
  obtain ⟨f, _, rfl⟩ := he
  simp [removeFromCollection]

lemma removeFromAll_names (st : CollState) (ob : String) :
    (removeFromAllCollections st ob).colls.map (fun e => e.1)
      = st.colls.map (fun e => e.1) := by
  simp [removeFromAllCollections, removeFromCollection]

lemma create_not_mem (st : CollState) (ob c : String)
    (h : ∀ e ∈ st.colls, ob ∉ e.2) :
    ∀ e ∈ (createCollectionIfNotExist st c).colls, ob ∉ e.2 := by
  intro e he
  unfold createCollectionIfNotExist at he
  by_cases hc : c ∈ st.colls.map (fun e => e.1)
  · rw [if_pos hc] at he; exact h e he
  · rw [if_neg hc] at he
    rcases List.mem_append.mp he with h1 | h2
    · exact h e h1
    · simp at h2; subst h2; simp

lemma create_names_nodup (st : CollState) (c : String)
    (h : (st.colls.map (fun e => e.1)).Nodup) :
    ((createCollectionIfNotExist st c).colls.map (fun e => e.1)).Nodup := by
  unfold createCollectionIfNotExist
  by_cases hc : c ∈ st.colls.map (fun e => e.1)
  · rw [if_pos hc]; exact h
  · rw [if_neg hc]
    simp only [List.map_append, List.map_cons, List.map_nil]
    exact List.nodup_append.mpr ⟨h, List.nodup_singleton c, by simpa using hc⟩

lemma create_names_mem (st : CollState) (c : String) :
    c ∈ (createCollectionIfNotExist st c).colls.map (fun e => e.1) := by
  unfold createCollectionIfNotExist
  by_cases hc : c ∈ st.colls.map (fun e => e.1)
  · rw [if_pos hc]; exact hc
  · rw [if_neg hc]; simp

lemma link_memberships_nil (L : List (String × List String)) (ob c : String)
    (ha : ∀ e ∈ L, ob ∉ e.2) (hc : c ∉ L.map (fun e => e.1)) :
    memberships ⟨L.map (fun e => if e.1 = c then (e.1, e.2 ++ [ob]) else e)⟩ ob
      = [] := by
  induction L with
  | nil => rfl
  | cons e L ih =>
      have hec : e.1 ≠ c := by
        intro h; exact hc (by simp [h])
      have hob : ob ∉ e.2 := ha e (by simp)
      simp only [List.map_cons, if_neg hec, memberships, List.filter_cons]
      rw [if_neg (by simpa using hob)]
      exact ih (fun f hf => ha f (by simp [hf])) (fun h => hc (by simp at h ⊢; exact Or.inr h))

lemma link_memberships (L : List (String × List String)) (ob c : String)
    (ha : ∀ e ∈ L, ob ∉ e.2) (hb : (L.map (fun e => e.1)).Nodup)
    (hc : c ∈ L.map (fun e => e.1)) :
    memberships ⟨L.map (fun e => if e.1 = c then (e.1, e.2 ++ [ob]) else e)⟩ ob
      = [c] := by
  induction L with
  | nil => simp at hc
  | cons e L ih =>
      by_cases hec : e.1 = c
      · have hcL : c ∉ L.map (fun f => f.1) := by
          simp only [List.map_cons, List.nodup_cons] at hb
          rw [hec] at hb
          exact hb.1
        have hnil := link_memberships_nil L ob c (fun f hf => ha f (by simp [hf])) hcL
        simp only [memberships] at hnil
        simp only [List.map_cons, if_pos hec, memberships, List.filter_cons]
        rw [if_pos (by simp)]
        simp only [List.map_cons, hec]
        rw [hnil]
      · have hob : ob ∉ e.2 := ha e (by simp)
        simp only [List.map_cons, if_neg hec, memberships, List.filter_cons]
        rw [if_neg (by simpa using hob)]
        have hb' : (L.map (fun f => f.1)).Nodup := by
          simp only [List.map_cons, List.nodup_cons] at hb; exact hb.2
        have hc' : c ∈ L.map (fun f => f.1) := by
          simp only [List.map_cons, List.mem_cons] at hc
          rcases hc with h | h
          · exact absurd h.symm hec
          · exact h
        exact ih (fun f hf => ha f (by simp [hf])) hb' hc'

lemma memberships_map (L : List (String × List String))
    (f : String × List String → String × List String) (ob2 : String)
    (hname : ∀ e, (f e).1 = e.1)
    (hmem : ∀ e, (ob2 ∈ (f e).2) ↔ (ob2 ∈ e.2)) :
    memberships ⟨L.map f⟩ ob2 = memberships ⟨L⟩ ob2 := by
  simp only [memberships, List.filter_map, List.map_map]
  rw [List.filter_congr (fun e _ => by
    show decide (ob2 ∈ (f e).2) = decide (ob2 ∈ e.2)
    exact decide_eq_decide.mpr (hmem e))]
  exact List.map_congr_left (fun e _ => hname e)

lemma memberships_link_other (st : CollState) (c ob ob2 : String)
    (hne : ob2 ≠ ob) :
    memberships (linkToCollection st c ob) ob2 = memberships st ob2 := by
  apply memberships_map
  · intro e; by_cases h : e.1 = c <;> simp [h]
  · intro e; by_cases h : e.1 = c <;> simp [h, hne]

lemma memberships_create_other (st : CollState) (c ob2 : String) :
    memberships (createCollectionIfNotExist st c) ob2 = memberships st ob2 := by
  unfold createCollectionIfNotExist
  by_cases hc : c ∈ st.colls.map (fun e => e.1)
  · rw [if_pos hc]
  · rw [if_neg hc]
    simp [memberships, List.filter_append]

lemma memberships_removeAll_other (st : CollState) (ob ob2 : String)
    (hne : ob2 ≠ ob) :
    memberships (removeFromAllCollections st ob) ob2 = memberships st ob2 := by
  apply memberships_map
  · intro e; rfl
  · intro e
    simp only [removeFromCollection, List.mem_filter, decide_eq_true_eq]
    exact ⟨fun h => h.1, fun h => ⟨h, hne⟩⟩

/-- C9: `set_parent_collection` makes collection membership exclusive:
after `set_parent_collection(ob, c)` the object `ob` belongs to exactly the
one collection `c` (it is first removed from every collection it belonged
to, then linked into `c`), and the memberships of every other object are
untouched.  Collection names are unique in Blender, which is the `Nodup`
hypothesis. -/
theorem setParentCollection_exclusive (st : CollState) (ob c : String)
    (hnodup : (st.colls.map (fun e => e.1)).Nodup) :
    memberships (setParentCollection st ob c) ob = [c]
      ∧ ∀ ob2, ob2 ≠ ob →
        memberships (setParentCollection st ob c) ob2 = memberships st ob2 := by
  constructor
  · unfold setParentCollection linkToCollection
    apply link_memberships
    · exact create_not_mem _ ob c (removeFromAll_not_mem st ob)
    · apply create_names_nodup
      rw [removeFromAll_names]; exact hnodup
    · exact create_names_mem _ c
  · intro ob2 hne
    rw [setParentCollection, memberships_link_other _ _ _ _ hne,
      memberships_create_other, memberships_removeAll_other _ _ _ hne]

/-- Witness for C9 at a concrete store: object `x`, linked into `A` and `B`,
ends up exactly in `G` after `set_parent_collection(x, G)`. -/
theorem setParentCollection_exclusive_witness :
    ((([("A", ["x", "y"]), ("B", ["x"])] : List (String × List String)).map
        (fun e => e.1)).Nodup)
      ∧ memberships
          (setParentCollection ⟨[("A", ["x", "y"]), ("B", ["x"])]⟩ "x" "G") "x"
          = ["G"] :=
  ⟨by decide,
    (setParentCollection_exclusive ⟨[("A", ["x", "y"]), ("B", ["x"])]⟩ "x" "G"
      (by decide)).1⟩

lemma tagWithName_verts (ob : MeshObj) : (tagWithName ob).verts = ob.verts := rfl

/-- Core accounting for the join fold: every input object's vertices appear
contiguously in the joined mesh at some offset, and the name-stashing vertex
group for that object points exactly at those (shifted) indices. -/
lemma foldl_tag_mergeTwo_cover (objects : List MeshObj) (a : MeshObj) :
    ∀ ob ∈ objects, ∃ off : ℕ,
      (ob.name, (List.range ob.verts.length).map (fun i => i + off))
          ∈ ((objects.map tagWithName).foldl mergeTwo a).vgroups
        ∧ ((((objects.map tagWithName).foldl mergeTwo a).verts.drop off).take
            ob.verts.length) = ob.verts := by
  induction objects generalizing a with
  | nil => intro ob h; cases h
  | cons b bs ih =>
      intro ob hob
      rcases List.mem_cons.mp hob with rfl | hob2
      · refine ⟨a.verts.length, ?_, ?_⟩
        · exact foldl_mergeTwo_vgroup_mem (bs.map tagWithName)
            (mergeTwo a (tagWithName ob)) _
            (List.mem_append_right _ (List.mem_map.mpr
              ⟨(ob.name, List.range ob.verts.length),
                List.mem_append_right _ (by simp), rfl⟩))
        · rw [foldl_mergeTwo_verts]
          simp only [List.map_cons, List.flatten_cons, List.map_map,
            Function.comp_def, tagWithName_verts]
          rw [List.drop_left, List.take_left]
      · exact ih (mergeTwo a (tagWithName b)) ob hob2

/-- C10: `join_objects` on an empty list returns `None` and leaves nothing
behind; on a one-element list it returns that object untouched (no join, no
name-stashing vertex group); on two or more objects it tags every object's
vertices with a vertex group named after the object and joins everything
into one mesh carrying the first object's identity, whose vertex list is the
concatenation of the inputs' vertices, each input recoverable through its
name-stashing group at its offset. -/
theorem joinObjects_spec (a b : MeshObj) (rest : List MeshObj) :
    joinObjects [] = (none, [])
      ∧ joinObjects [a] = (some a, [a])
      ∧ ∃ j : MeshObj,
          joinObjects (a :: b :: rest) = (some j, [j])
            ∧ j.name = a.name
            ∧ j.verts = ((a :: b :: rest).map (fun o => o.verts)).flatten
            ∧ ∀ ob ∈ a :: b :: rest, ∃ off : ℕ,
                (ob.name, (List.range ob.verts.length).map (fun i => i + off))
                    ∈ j.vgroups
                  ∧ ((j.verts.drop off).take ob.verts.length) = ob.verts := by
  refine ⟨rfl, rfl, ⟨((b :: rest).map tagWithName).foldl mergeTwo (tagWithName a),
    rfl, ?_, ?_, ?_⟩⟩
  · rw [foldl_mergeTwo_name]; rfl
  · rw [foldl_mergeTwo_verts]
    simp [tagWithName_verts, Function.comp_def]
  · intro ob hob
    rcases List.mem_cons.mp hob with rfl | hob2
    · refine ⟨0, ?_, ?_⟩
      · have h := foldl_mergeTwo_vgroup_mem ((b :: rest).map tagWithName)
          (tagWithName ob) (ob.name, List.range ob.verts.length)
          (List.mem_append_right _ (by simp))
        simpa using h
      · rw [foldl_mergeTwo_verts]
        show (((tagWithName ob).verts ++ _).drop 0).take _ = _
        rw [List.drop_zero, tagWithName_verts, List.take_left]
    · exact foldl_tag_mergeTwo_cover (b :: rest) (tagWithName a) ob hob2

/-- Witness for C10 at two concrete one- and two-vertex meshes. -/
theorem joinObjects_spec_witness :
    joinObjects [] = (none, [])
      ∧ joinObjects [({ name := "A", verts := [(0, 0, 0)], vgroups := [] } : MeshObj)]
          = (some { name := "A", verts := [(0, 0, 0)], vgroups := [] },
             [{ name := "A", verts := [(0, 0, 0)], vgroups := [] }])
      ∧ ∃ j : MeshObj,
          joinObjects [{ name := "A", verts := [(0, 0, 0)], vgroups := [] },
              { name := "B", verts := [(1, 0, 0), (2, 0, 0)], vgroups := [] }]
            = (some j, [j])
            ∧ j.name = "A"
            ∧ j.verts = (([{ name := "A", verts := [(0, 0, 0)], vgroups := [] },
                { name := "B", verts := [(1, 0, 0), (2, 0, 0)], vgroups := [] }] :
                  List MeshObj).map (fun o => o.verts)).flatten
            ∧ ∀ ob ∈ ([{ name := "A", verts := [(0, 0, 0)], vgroups := [] },
                { name := "B", verts := [(1, 0, 0), (2, 0, 0)], vgroups := [] }] :
                  List MeshObj), ∃ off : ℕ,
                (ob.name, (List.range ob.verts.length).map (fun i => i + off))
                    ∈ j.vgroups
                  ∧ ((j.verts.drop off).take ob.verts.length) = ob.verts :=
  joinObjects_spec { name := "A", verts := [(0, 0, 0)], vgroups := [] }
    { name := "B", verts := [(1, 0, 0), (2, 0, 0)], vgroups := [] } []

/-! ## Opening partition in `carve_openings_in_collision_mesh`
(script lines 752-803; C4)

`multipart_opening_regex_str = "^(?P<Prefix>.+Opening)_(\\d{2})$"`.  The
suffix `_(\d{2})$` is of fixed length three, so the greedy `.+Opening`
capture is the name minus its last three characters; it must end in
`Opening` and be at least eight characters long (`.+` needs one). -/

/-- `multipart_opening_regex.match(name)`, returning the `Prefix` group. -/
def multipartPrefix (name : String) : Option String :=
  match name.data.reverse with
  | d2 :: d1 :: c :: rest =>
      if c = '_' ∧ d1.isDigit ∧ d2.isDigit
          ∧ ['g', 'n', 'i', 'n', 'e', 'p', 'O'].isPrefixOf rest
          ∧ 8 ≤ rest.length
      then some (String.mk rest.reverse) else none
  | _ => none

/-- `multipart_openings[prefix].append(opening)` on a `defaultdict(list)`
(insertion-ordered, as Python dicts are). -/
def insertGroup (groups : List (String × List String)) (p n : String) :
    List (String × List String) :=
  match groups with
  | [] => [(p, [n])]
  | g :: gs => if g.1 = p then (g.1, g.2 ++ [n]) :: gs else g :: insertGroup gs p n

/-- One step of the first loop of `carve_openings_in_collision_mesh`: a
multipart-looking opening is collected into its prefix group, any other
opening becomes a singleton subtraction object immediately. -/
def openingStep (acc : List String × List (String × List String)) (n : String) :
    List String × List (String × List String) :=
  match multipartPrefix n with
  | some p => (acc.1, insertGroup acc.2 p n)
  | none => (acc.1 ++ [n], acc.2)

/-- The partition of the candidate openings: immediate singletons (in input
order) and the multipart groups (in key-insertion order). -/
def partitionOpenings (names : List String) :
    List String × List (String × List String) :=
  names.foldl openingStep ([], [])

/-- The subtraction groups the function carves with: one group per singleton
and one per multipart prefix (a one-element group is handled like a
singleton; a larger group is joined into one subtraction object). -/
def subtractionGroups (names : List String) : List (List String) :=
  (partitionOpenings names).1.map (fun n => [n])
    ++ (partitionOpenings names).2.map (fun g => g.2)

/-- First entry for a prefix in the group store, as Python's `dict` lookup. -/
def lookupG (groups : List (String × List String)) (p : String) :
    Option (List String) :=
  (groups.find? (fun e => e.1 = p)).map (fun e => e.2)

lemma foldl_openingStep_fst (names : List String) :
    ∀ s g, (names.foldl openingStep (s, g)).1
      = s ++ names.filter (fun n => multipartPrefix n = none) := by
  induction names with
  | nil => intro s g; simp
  | cons n ns ih =>
      intro s g
      simp only [List.foldl_cons, List.filter_cons]
      cases hmp : multipartPrefix n with
      | some p =>
          rw [openingStep, hmp]
          simp only [hmp, ih]
          simp
      | none =>
          rw [openingStep, hmp]
          simp only [hmp, ih]
          simp

lemma foldl_openingStep_snd (names : List String) :
    ∀ s g, (names.foldl openingStep (s, g)).2
      = names.foldl (fun g n =>
          match multipartPrefix n with
          | some p => insertGroup g p n
          | none => g) g := by
  induction names with
  | nil => intro s g; rfl
  | cons n ns ih =>
      intro s g
      simp only [List.foldl_cons, openingStep]
      cases hmp : multipartPrefix n <;> simp [ih]

lemma lookupG_insert_self (g : List (String × List String)) (p n : String) :
    lookupG (insertGroup g p n) p = some ((lookupG g p).getD [] ++ [n]) := by
  induction g with
  | nil => simp [lookupG, insertGroup, List.find?]
  | cons e es ih =>
      by_cases hep : e.1 = p
      · simp [lookupG, insertGroup, hep, List.find?]
      · simp only [insertGroup, if_neg hep]
        have h1 : lookupG (e :: es) p = lookupG es p := by
          simp [lookupG, List.find?_cons, hep]
        have h2 : lookupG (e :: insertGroup es p n) p
            = lookupG (insertGroup es p n) p := by
          simp [lookupG, List.find?_cons, hep]
        rw [h2, ih, h1]

lemma lookupG_insert_other (g : List (String × List String)) (p q n : String)
    (hpq : q ≠ p) :
    lookupG (insertGroup g p n) q = lookupG g q := by
  induction g with
  | nil => simp [lookupG, insertGroup, List.find?, hpq.symm]
  | cons e es ih =>
      by_cases hep : e.1 = p
      · have hpq2 : p ≠ q := fun h => hpq h.symm
        simp [lookupG, insertGroup, hep, List.find?_cons, hpq2]
      · simp only [insertGroup, if_neg hep]
        by_cases heq : e.1 = q
        · simp [lookupG, List.find?_cons, heq]
        · have h1 : lookupG (e :: insertGroup es p n) q
              = lookupG (insertGroup es p n) q := by
            simp [lookupG, List.find?_cons, heq]
          have h2 : lookupG (e :: es) q = lookupG es q := by
            simp [lookupG, List.find?_cons, heq]
          rw [h1, h2, ih]

/-- How an opening-name list builds up the group entry for a prefix. -/
lemma fold_insert_lookup (names : List String) (p : String) :
    ∀ g, lookupG (names.foldl (fun g n =>
          match multipartPrefix n with
          | some q => insertGroup g q n
          | none => g) g) p
      = (if lookupG g p = none
            ∧ names.filter (fun m => multipartPrefix m = some p) = []
         then none
         else some ((lookupG g p).getD []
            ++ names.filter (fun m => multipartPrefix m = some p))) := by
  induction names with
  | nil =>
      intro g
      cases h : lookupG g p with
      | none => simp [h]
      | some l => simp [h]
  | cons n ns ih =>
      intro g
      simp only [List.foldl_cons, List.filter_cons]
      cases hmp : multipartPrefix n with
      | none =>
          have hne : (decide (multipartPrefix n = some p)) = false := by
            simp [hmp]
          simp only [hmp, hne, Bool.false_eq_true, if_false]
          exact ih g
      | some q =>
          by_cases hqp : q = p
          · subst hqp
            have heq : (decide (multipartPrefix n = some q)) = true := by
              simp [hmp]
            simp only [hmp, heq, if_true]
            rw [ih (insertGroup g q n), lookupG_insert_self]
            simp only [Option.getD_some, reduceCtorEq, false_and, if_false]
            cases h : lookupG g q with
            | none => simp [List.append_assoc]
            | some l => simp [List.append_assoc]
          · simp only [hmp]
            rw [ih (insertGroup g q n),
              lookupG_insert_other _ _ _ _ (fun h => hqp h.symm)]
            simp [hqp]

lemma lookupG_mem (g : List (String × List String)) (p : String)
    (l : List String) (h : lookupG g p = some l) : l ∈ g.map (fun e => e.2) := by
  simp only [lookupG, Option.map_eq_some'] at h
  obtain ⟨e, he, rfl⟩ := h
  exact List.mem_map_of_mem _ (List.mem_of_find?_eq_some he)

/-- C4: the opening-carving partition.  Openings that do not look multipart
become singleton subtraction groups; each multipart-looking opening ends up
in the group of all openings sharing its `..._Opening` prefix (a group that
collects exactly one such name is handled like a singleton); and on the
openings `X_Opening_01`, `X_Opening_02`, `Y_Opening_01` the algorithm yields
exactly the two subtraction groups `[X_Opening_01, X_Opening_02]` (joined)
and `[Y_Opening_01]` (alone). -/
theorem carveOpenings_partition (names : List String) :
    (∀ n ∈ names, multipartPrefix n = none → [n] ∈ subtractionGroups names)
      ∧ (∀ n ∈ names, ∀ p, multipartPrefix n = some p →
          names.filter (fun m => multipartPrefix m = some p)
              ∈ subtractionGroups names
            ∧ n ∈ names.filter (fun m => multipartPrefix m = some p))
      ∧ subtractionGroups ["X_Opening_01", "X_Opening_02", "Y_Opening_01"]
          = [["X_Opening_01", "X_Opening_02"], ["Y_Opening_01"]] := by
  refine ⟨?_, ?_, by decide⟩
  · intro n hn hmp
    apply List.mem_append_left
    apply List.mem_map_of_mem
    rw [show partitionOpenings names = names.foldl openingStep ([], []) from rfl,
      foldl_openingStep_fst]
    simp only [List.nil_append, List.mem_filter]
    exact ⟨hn, by simp [hmp]⟩
  · intro n hn p hmp
    have hmem : n ∈ names.filter (fun m => multipartPrefix m = some p) :=
      List.mem_filter.mpr ⟨hn, by simp [hmp]⟩
    refine ⟨?_, hmem⟩
    apply List.mem_append_right
    apply lookupG_mem _ p
    rw [show partitionOpenings names = names.foldl openingStep ([], []) from rfl,
      foldl_openingStep_snd, fold_insert_lookup]
    have hne : names.filter (fun m => multipartPrefix m = some p) ≠ [] :=
      fun h => by rw [h] at hmem; cases hmem
    rw [if_neg (fun h => hne h.2)]
    simp [lookupG]

/-- Witness for C4: `X_Opening_01` is multipart with prefix `X_Opening` and
lands in the group of both `X_Opening` parts. -/
theorem carveOpenings_partition_witness :
    multipartPrefix "X_Opening_01" = some "X_Opening"
      ∧ (["X_Opening_01", "X_Opening_02", "Y_Opening_01"].filter
            (fun m => multipartPrefix m = some "X_Opening")
          ∈ subtractionGroups ["X_Opening_01", "X_Opening_02", "Y_Opening_01"])
      ∧ "X_Opening_01" ∈ ["X_Opening_01", "X_Opening_02", "Y_Opening_01"].filter
          (fun m => multipartPrefix m = some "X_Opening") :=
  ⟨by decide,
    ((carveOpenings_partition ["X_Opening_01", "X_Opening_02", "Y_Opening_01"]).2.1
      "X_Opening_01" (by decide) "X_Opening" (by decide)).1,
    ((carveOpenings_partition ["X_Opening_01", "X_Opening_02", "Y_Opening_01"]).2.1
      "X_Opening_01" (by decide) "X_Opening" (by decide)).2⟩

/-! ## `assign_slab_names` (script lines 266-296; C6)

A slab object carries its raw name, the third (Z-output) row of its
`matrix_world`, and its local vertex coordinates; `matrix_world @ v` has Z
component `m20*x + m21*y + m22*z + m23`.  The script keys each slab (raw
name starting with the literal `Slab`; Blender object names are unique, the
`Nodup` hypothesis) by a fold of `min` over the world-space Z of its
vertices *starting from the sentinel `999999.0`*, sorts the keys ascending
with Python's stable `sorted` (here: stable insertion sort), and renames to
`"SM_House_Floor_%02d_Slab" % index`, 1-based. -/

structure SlabObj where
  name : String
  zrow : ℤ × ℤ × ℤ × ℤ
  verts : List (ℤ × ℤ × ℤ)
  deriving DecidableEq

/-- Python `s.startswith(p)`. -/
def strStartsWith (s p : String) : Bool := p.data.isPrefixOf s.data

/-- Z component of `ob.matrix_world @ Vector((x, y, z))`. -/
def worldZ (ob : SlabObj) (v : ℤ × ℤ × ℤ) : ℤ :=
  ob.zrow.1 * v.1 + ob.zrow.2.1 * v.2.1 + ob.zrow.2.2.1 * v.2.2 + ob.zrow.2.2.2

/-- The loop `slab_min_z = 999999.0; for vertex ...: slab_min_z =
min(slab_min_z, v_world[2])`. -/
def slabMinZ (ob : SlabObj) : ℤ :=
  ob.verts.foldl (fun acc v => min acc (worldZ ob v)) 999999

/-- The `(name, min Z)` pairs of the slabs, in scan order. -/
def slabPairs (obs : List SlabObj) : List (String × ℤ) :=
  (obs.filter (fun o => strStartsWith o.name "Slab")).map (fun o => (o.name, slabMinZ o))

/-- Sort key comparison used by `sorted(..., key=lambda kv: kv[1])`. -/
def slabLE (a b : String × ℤ) : Prop := a.2 ≤ b.2

instance : DecidableRel slabLE := fun a b => inferInstanceAs (Decidable (a.2 ≤ b.2))

instance : IsTotal (String × ℤ) slabLE := ⟨fun a b => le_total a.2 b.2⟩

instance : IsTrans (String × ℤ) slabLE := ⟨fun _ _ _ h1 h2 => le_trans h1 h2⟩

/-- Slab names in ascending key order (Python's `sorted` is stable, as is
insertion sort). -/
def slabNamesSorted (obs : List SlabObj) : List String :=
  (List.insertionSort slabLE (slabPairs obs)).map (fun e => e.1)

/-- The 1-based index a slab name receives in `enumerate(..., start=1)`. -/
def slabIndex (obs : List SlabObj) (n : String) : ℕ :=
  (slabNamesSorted obs).indexOf n + 1

/-- Python `"%02d" % n`. -/
def fmt02 (n : ℕ) : String := if n < 10 then "0" ++ toString n else toString n

def slabNewName (i : ℕ) : String := "SM_House_Floor_" ++ fmt02 i ++ "_Slab"

/-- `assign_slab_names`: rename every object whose raw name begins with
`Slab` to its position in the ascending-min-Z order; leave everything else
alone. -/
def assignSlabNames (obs : List SlabObj) : List SlabObj :=
  obs.map (fun o =>
    if strStartsWith o.name "Slab"
    then { o with name := slabNewName (slabIndex obs o.name) }
    else o)

lemma foldl_min_mem (l : List ℤ) (c : ℤ) : l.foldl min c ∈ c :: l := by
  induction l generalizing c with
  | nil => simp
  | cons x xs ih =>
      rw [List.foldl_cons]
      rcases List.mem_cons.mp (ih (min c x)) with h | h
      · rcases min_choice c x with hc | hc <;> rw [h, hc]
        · exact List.mem_cons_self _ _
        · exact List.mem_cons.mpr (Or.inr (List.mem_cons_self _ _))
      · exact List.mem_cons.mpr (Or.inr (List.mem_cons.mpr (Or.inr h)))

lemma foldl_min_le_init (l : List ℤ) (c : ℤ) : l.foldl min c ≤ c := by
  induction l generalizing c with
  | nil => simp
  | cons x xs ih => exact le_trans (ih (min c x)) (min_le_left c x)

lemma foldl_min_le_mem (l : List ℤ) (c : ℤ) (z : ℤ) (hz : z ∈ l) :
    l.foldl min c ≤ z := by
  induction l generalizing c with
  | nil => cases hz
  | cons x xs ih =>
      rcases List.mem_cons.mp hz with rfl | h
      · exact le_trans (foldl_min_le_init xs (min c z)) (min_le_right c z)
      · exact ih (min c x) h

lemma pair_at_indexOf (S : List (String × ℤ))
    (hN : (S.map (fun e => e.1)).Nodup) (p : String × ℤ) (hp : p ∈ S) :
    ∃ h : (S.map (fun e => e.1)).indexOf p.1 < S.length,
      S[(S.map (fun e => e.1)).indexOf p.1] = p := by
  have hmem : p.1 ∈ S.map (fun e => e.1) := List.mem_map_of_mem _ hp
  have hlt : (S.map (fun e => e.1)).indexOf p.1 < (S.map (fun e => e.1)).length :=
    List.indexOf_lt_length.mpr hmem
  have hlen : (S.map (fun e => e.1)).length = S.length := List.length_map _ _
  refine ⟨hlen ▸ hlt, ?_⟩
  obtain ⟨k, hk, hkp⟩ := List.mem_iff_getElem.mp hp
  have hk2 : k < (S.map (fun e => e.1)).length := by rw [hlen]; exact hk
  have h1 : (S.map (fun e => e.1))[k] = p.1 := by
    rw [List.getElem_map]
    exact congrArg (fun e => e.1) hkp
  have h2 : (S.map (fun e => e.1))[(S.map (fun e => e.1)).indexOf p.1] = p.1 :=
    List.getElem_indexOf hlt
  have hinj := List.nodup_iff_injective_getElem.mp hN
  have hkeq : (⟨k, hk2⟩ : Fin (S.map (fun e => e.1)).length) = ⟨_, hlt⟩ :=
    hinj (h1.trans h2.symm)
  have hkv : k = (S.map (fun e => e.1)).indexOf p.1 := congrArg Fin.val hkeq
  subst hkv
  exact hkp

/-- Strict monotonicity of the assigned index in the (sentinel-clamped) key,
given unique slab names. -/
lemma slabIndex_mono (obs : List SlabObj)
    (hnames : ((obs.filter (fun o => strStartsWith o.name "Slab")).map
        (fun o => o.name)).Nodup)
    (a b : SlabObj) (ha : a ∈ obs) (hb : b ∈ obs)
    (hsa : strStartsWith a.name "Slab" = true)
    (hsb : strStartsWith b.name "Slab" = true)
    (hlt : slabMinZ a < slabMinZ b) :
    slabIndex obs a.name < slabIndex obs b.name := by
  have hperm := List.perm_insertionSort slabLE (slabPairs obs)
  have hsorted := List.sorted_insertionSort slabLE (slabPairs obs)
  have hmapfst : (slabPairs obs).map (fun e => e.1)
      = (obs.filter (fun o => strStartsWith o.name "Slab")).map (fun o => o.name) := by
    simp [slabPairs, List.map_map]
  have hN : ((List.insertionSort slabLE (slabPairs obs)).map
      (fun e => e.1)).Nodup := by
    have hp2 := hperm.map (fun e : String × ℤ => e.1)
    rw [hp2.nodup_iff, hmapfst]
    exact hnames
  have hpa : (a.name, slabMinZ a) ∈ List.insertionSort slabLE (slabPairs obs) := by
    rw [List.mem_insertionSort]
    exact List.mem_map_of_mem _ (List.mem_filter.mpr ⟨ha, hsa⟩)
  have hpb : (b.name, slabMinZ b) ∈ List.insertionSort slabLE (slabPairs obs) := by
    rw [List.mem_insertionSort]
    exact List.mem_map_of_mem _ (List.mem_filter.mpr ⟨hb, hsb⟩)
  obtain ⟨hia, hSa⟩ := pair_at_indexOf _ hN _ hpa
  obtain ⟨hib, hSb⟩ := pair_at_indexOf _ hN _ hpb
  rw [show slabIndex obs a.name
      = ((List.insertionSort slabLE (slabPairs obs)).map
          (fun e => e.1)).indexOf a.name + 1 from rfl,
    show slabIndex obs b.name
      = ((List.insertionSort slabLE (slabPairs obs)).map
          (fun e => e.1)).indexOf b.name + 1 from rfl]
  by_contra hcon
  push_neg at hcon
  have hle : ((List.insertionSort slabLE (slabPairs obs)).map
      (fun e => e.1)).indexOf b.name
      ≤ ((List.insertionSort slabLE (slabPairs obs)).map
          (fun e => e.1)).indexOf a.name := by omega
  rcases lt_or_eq_of_le hle with hlt2 | heq
  · have hpw := List.pairwise_iff_getElem.mp hsorted _ _ hib hia hlt2
    rw [hSa, hSb] at hpw
    exact absurd hpw (not_le.mpr hlt)
  · have hSa2 : (List.insertionSort slabLE (slabPairs obs))[((List.insertionSort
        slabLE (slabPairs obs)).map (fun e => e.1)).indexOf a.name]?
        = some (a.name, slabMinZ a) := by
      rw [List.getElem?_eq_getElem hia]
      exact congrArg some hSa
    have hSb2 : (List.insertionSort slabLE (slabPairs obs))[((List.insertionSort
        slabLE (slabPairs obs)).map (fun e => e.1)).indexOf b.name]?
        = some (b.name, slabMinZ b) := by
      rw [List.getElem?_eq_getElem hib]
      exact congrArg some hSb
    rw [heq, hSa2] at hSb2
    have : slabMinZ a = slabMinZ b :=
      congrArg (fun e => e.2) (Option.some.inj hSb2)
    exact absurd this (ne_of_lt hlt)

/-- A slab whose only vertex sits at world Z = 2000000 (above the sentinel). -/
def slabHigh : SlabObj := ⟨"SlabA", (0, 0, 1, 0), [(0, 0, 2000000)]⟩

/-- A slab whose only vertex sits at world Z = 1000000 (above the sentinel,
but a million units below `slabHigh`). -/
def slabLow : SlabObj := ⟨"SlabB", (0, 0, 1, 0), [(0, 0, 1000000)]⟩

/-- C6 counterexample: the fold that computes a slab's key starts at the
sentinel `999999.0` (script line 277), so it is *not* the minimum
world-space Z of the vertices once geometry sits above Z = 999999: two slabs
whose single vertices sit at world Z = 2000000 and Z = 1000000 (input in
that order, identity-like Z row) both get key 999999, and the stable sort
then hands index `01` to the *higher* slab — refuting both "the key is the
minimum world-space Z over all its vertices" and "indices strictly increase
with minimum Z" as stated. -/
theorem assignSlabNames_counterexample :
    slabMinZ slabHigh = 999999
      ∧ slabMinZ slabLow = 999999
      ∧ slabHigh.verts.map (worldZ slabHigh) = [2000000]
      ∧ slabLow.verts.map (worldZ slabLow) = [1000000]
      ∧ (assignSlabNames [slabHigh, slabLow]).map (fun o => o.name)
          = ["SM_House_Floor_01_Slab", "SM_House_Floor_02_Slab"] := by
  refine ⟨by decide, by decide, by decide, by decide, by decide⟩

/-- C6 (amended): `assign_slab_names` renames exactly the objects whose raw
name begins with `Slab`, to `SM_House_Floor_%02d_Slab` with the 1-based
position of the slab's key in ascending order; the key is the fold of `min`
over the vertices' world-space Z values *seeded with the sentinel 999999*,
hence equal to the true minimum whenever some vertex lies below Z = 999999;
and for slabs with pairwise-distinct keys (in particular any slabs with
distinct vertex minima below the sentinel) the assigned indices strictly
increase with the key. -/
theorem assignSlabNames_spec (obs : List SlabObj)
    (hnames : ((obs.filter (fun o => strStartsWith o.name "Slab")).map
        (fun o => o.name)).Nodup) :
    (∀ o ∈ obs, strStartsWith o.name "Slab" = false → o ∈ assignSlabNames obs)
      ∧ (∀ o ∈ obs, strStartsWith o.name "Slab" = true →
          { o with name := slabNewName (slabIndex obs o.name) }
            ∈ assignSlabNames obs)
      ∧ (∀ o ∈ obs, (∃ v ∈ o.verts, worldZ o v < 999999) →
          slabMinZ o ∈ o.verts.map (worldZ o)
            ∧ ∀ z ∈ o.verts.map (worldZ o), slabMinZ o ≤ z)
      ∧ (∀ a ∈ obs, ∀ b ∈ obs, strStartsWith a.name "Slab" = true →
          strStartsWith b.name "Slab" = true → slabMinZ a < slabMinZ b →
          slabIndex obs a.name < slabIndex obs b.name) := by
  refine ⟨?_, ?_, ?_, ?_⟩
  · intro o ho hno
    have : (if strStartsWith o.name "Slab"
        then { o with name := slabNewName (slabIndex obs o.name) } else o) = o := by
      rw [if_neg (by rw [hno]; exact Bool.false_ne_true)]
    exact this ▸ List.mem_map_of_mem _ ho
  · intro o ho hyes
    have : (if strStartsWith o.name "Slab"
        then { o with name := slabNewName (slabIndex obs o.name) } else o)
        = { o with name := slabNewName (slabIndex obs o.name) } := by
      rw [if_pos hyes]
    exact this ▸ List.mem_map_of_mem _ ho
  · intro o ho hex
    have hfold : slabMinZ o = (o.verts.map (worldZ o)).foldl min 999999 := by
      rw [List.foldl_map]
      rfl
    constructor
    · rcases List.mem_cons.mp (hfold ▸ foldl_min_mem (o.verts.map (worldZ o)) 999999)
          with hs | hs
      · obtain ⟨v, hv, hvlt⟩ := hex
        have hle : slabMinZ o ≤ worldZ o v := by
          rw [hfold]
          exact foldl_min_le_mem _ _ _ (List.mem_map_of_mem _ hv)
        rw [hs] at hle
        exact absurd (lt_of_le_of_lt hle hvlt) (lt_irrefl _)
      · exact hs
    · intro z hz
      rw [hfold]
      exact foldl_min_le_mem _ _ _ hz
  · intro a ha b hb hsa hsb hlt
    exact slabIndex_mono obs hnames a b ha hb hsa hsb hlt

/-- A slab whose only vertex sits at world Z = 7 (below the sentinel). -/
def slabSeven : SlabObj := ⟨"SlabA", (0, 0, 1, 0), [(0, 0, 7)]⟩

/-- A slab whose only vertex sits at world Z = 3 (below the sentinel). -/
def slabThree : SlabObj := ⟨"SlabB", (0, 0, 1, 0), [(0, 0, 3)]⟩

/-- Witness for the amended C6 at two one-vertex slabs below the sentinel:
the lower slab gets the smaller index. -/
theorem assignSlabNames_spec_witness :
    ((([slabSeven, slabThree] : List SlabObj).filter
        (fun o => strStartsWith o.name "Slab")).map (fun o => o.name)).Nodup
      ∧ slabIndex [slabSeven, slabThree] slabThree.name
          < slabIndex [slabSeven, slabThree] slabSeven.name :=
  ⟨by decide,
    (assignSlabNames_spec [slabSeven, slabThree] (by decide)).2.2.2
      slabThree (by decide) slabSeven (by decide) (by decide) (by decide)
      (by decide)⟩

/-! ## `translate_origin_of_all_objects_to_world_origin`
(script lines 371-422; C7)

Scene objects are modelled with a world-space origin (`ob.location`, equal
to `matrix_world.translation` for the translation-only transforms of this
stage) and local vertex coordinates, over `ℚ` since the scene mean divides
by the object count.  `make_single_user` duplicates shared datablocks and is
the identity on this per-object data model. -/

def vadd {α : Type} [Add α] (a b : α × α × α) : α × α × α :=
  (a.1 + b.1, a.2.1 + b.2.1, a.2.2 + b.2.2)

def vsub {α : Type} [Sub α] (a b : α × α × α) : α × α × α :=
  (a.1 - b.1, a.2.1 - b.2.1, a.2.2 - b.2.2)

def vneg {α : Type} [Neg α] (a : α × α × α) : α × α × α :=
  (-a.1, -a.2.1, -a.2.2)

structure XObj where
  name : String
  isMesh : Bool
  origin : ℚ × ℚ × ℚ
  verts : List (ℚ × ℚ × ℚ)
  deriving DecidableEq

/-- Script lines 381-387: the scene center is the arithmetic mean of the
selected (mesh) objects' `matrix_world.translation`, unless a fixed center
is configured, in which case that point is used. -/
def sceneCenter (fixedCenter : Option (ℚ × ℚ × ℚ)) (obs : List XObj) :
    ℚ × ℚ × ℚ :=
  match fixedCenter with
  | some c => c
  | none =>
      let ms := obs.filter (fun o => o.isMesh)
      let s := ms.foldl (fun acc o => vadd acc o.origin) (0, 0, 0)
      (s.1 / ms.length, s.2.1 / ms.length, s.2.2 / ms.length)

/-- Script lines 389-391: `cursor.location = scene_center` followed by
`cursor.location.z = 0` — the Z pin is applied after the `if`/`else`, hence
in *both* branches, including a configured fixed center. -/
def cursorAfterCenter (fixedCenter : Option (ℚ × ℚ × ℚ)) (obs : List XObj) :
    ℚ × ℚ × ℚ :=
  ((sceneCenter fixedCenter obs).1, (sceneCenter fixedCenter obs).2.1, 0)

/-- The world-space vertex positions of an object. -/
def worldVerts (o : XObj) : List (ℚ × ℚ × ℚ) := o.verts.map (vadd o.origin)

/-- The whole procedure: `assert n` on the mesh selection (line 379);
`ob.location = ob.location - cursor.location` for every object (line 408);
then the cursor moves to `(0, 0, 0)` and
`origin_set(type='ORIGIN_CURSOR', center='MEDIAN')` re-homes every object's
origin to the cursor at the world origin, Blender compensating the mesh
data so the world-space geometry does not move (lines 414-420). -/
def translateAllToWorldOrigin (fixedCenter : Option (ℚ × ℚ × ℚ))
    (obs : List XObj) : Except String (List XObj) :=
  if (obs.filter (fun o => o.isMesh)).length = 0 then
    Except.error "AssertionError"
  else
    let cur := cursorAfterCenter fixedCenter obs
    let obs1 := obs.map (fun o => { o with origin := vsub o.origin cur })
    Except.ok (obs1.map (fun o =>
      { o with origin := (0, 0, 0), verts := o.verts.map (vadd o.origin) }))

/-- A one-vertex mesh at the world origin. -/
def houseMesh : XObj := ⟨"Wall", true, (0, 0, 0), [(0, 0, 0)]⟩

/-- C7 counterexample: with the fixed scene center `(1, 2, 3)` configured,
the reference point actually subtracted is `(1, 2, 0)` — the code pins Z to
0 in the fixed branch too (script line 391) — not the operator-supplied
point `(1, 2, 3)` the claim describes. -/
theorem recenter_counterexample :
    cursorAfterCenter (some (1, 2, 3)) [houseMesh] = (1, 2, 0)
      ∧ cursorAfterCenter (some (1, 2, 3)) [houseMesh] ≠ (1, 2, 3) :=
  ⟨rfl, by decide⟩

/-- The composite effect of the two per-object phases on one object:
translate by minus the cursor, then re-home the origin to the world origin
with the mesh data absorbing the old origin. -/
def recenteredObj (cur : ℚ × ℚ × ℚ) (o : XObj) : XObj :=
  { o with
      origin := (0, 0, 0)
      verts := o.verts.map (fun v => vadd (vsub o.origin cur) v) }

/-- C7 (amended): with at least one mesh, the procedure succeeds; the
reference point is the arithmetic mean of the mesh origins with Z pinned to
0 when no fixed center is configured (stated multiplicatively: reference
times mesh count equals the component sums), and the operator-supplied
fixed point *with its Z likewise pinned to 0* when one is; every object is
translated by minus that reference and its local origin is then re-homed to
the 3D cursor at the world origin, the mesh data absorbing the old origin
so that each object's world geometry is exactly the original shifted by
minus the reference. -/
theorem translateAll_spec (fixedCenter : Option (ℚ × ℚ × ℚ))
    (obs : List XObj)
    (hmesh : (obs.filter (fun o => o.isMesh)).length ≠ 0) :
    ∃ out, translateAllToWorldOrigin fixedCenter obs = Except.ok out
      ∧ (∀ c, fixedCenter = some c →
          cursorAfterCenter fixedCenter obs = (c.1, c.2.1, 0))
      ∧ (fixedCenter = none →
          (cursorAfterCenter fixedCenter obs).1
              * ((obs.filter (fun o => o.isMesh)).length : ℚ)
            = ((obs.filter (fun o => o.isMesh)).map (fun o => o.origin.1)).sum
          ∧ (cursorAfterCenter fixedCenter obs).2.1
              * ((obs.filter (fun o => o.isMesh)).length : ℚ)
            = ((obs.filter (fun o => o.isMesh)).map (fun o => o.origin.2.1)).sum
          ∧ (cursorAfterCenter fixedCenter obs).2.2 = 0)
      ∧ (∀ o ∈ obs, recenteredObj (cursorAfterCenter fixedCenter obs) o ∈ out)
      ∧ ∀ o ∈ obs, ∃ o2 ∈ out, o2.name = o.name ∧ o2.origin = (0, 0, 0)
          ∧ worldVerts o2 = (worldVerts o).map
              (fun v => vsub v (cursorAfterCenter fixedCenter obs)) := by
  refine ⟨(obs.map (fun o =>
      { o with origin := vsub o.origin (cursorAfterCenter fixedCenter obs) })).map
        (fun o => { o with
            origin := ((0 : ℚ), (0 : ℚ), (0 : ℚ))
            verts := o.verts.map (vadd o.origin) }),
    ?_, ?_, ?_, ?_, ?_⟩
  · rw [translateAllToWorldOrigin, if_neg hmesh]
  · intro c hc
    subst hc
    rfl
  · intro hc
    subst hc
    have hsum : ∀ (l : List XObj) (z : ℚ × ℚ × ℚ),
        l.foldl (fun acc o => vadd acc o.origin) z
          = (z.1 + (l.map (fun o => o.origin.1)).sum,
             z.2.1 + (l.map (fun o => o.origin.2.1)).sum,
             z.2.2 + (l.map (fun o => o.origin.2.2)).sum) := by
      intro l
      induction l with
      | nil => intro z; simp
      | cons o os ih =>
          intro z
          rw [List.foldl_cons, ih]
          simp only [vadd, List.map_cons, List.sum_cons, Prod.mk.injEq]
          refine ⟨by ring, by ring, by ring⟩
    have hn : ((obs.filter (fun o => o.isMesh)).length : ℚ) ≠ 0 := by
      exact_mod_cast hmesh
    refine ⟨?_, ?_, rfl⟩
    · show (sceneCenter none obs).1 * _ = _
      rw [sceneCenter]
      simp only [hsum]
      rw [zero_add, div_mul_cancel₀ _ hn]
    · show (sceneCenter none obs).2.1 * _ = _
      rw [sceneCenter]
      simp only [hsum]
      rw [zero_add, div_mul_cancel₀ _ hn]
  · intro o ho
    rw [List.map_map]
    exact List.mem_map_of_mem _ ho
  · intro o ho
    refine ⟨recenteredObj (cursorAfterCenter fixedCenter obs) o, ?_, rfl, rfl, ?_⟩
    · rw [List.map_map]
      exact List.mem_map_of_mem _ ho
    · simp only [worldVerts, recenteredObj, List.map_map]
      apply List.map_congr_left
      intro v hv
      show vadd ((0 : ℚ), (0 : ℚ), (0 : ℚ))
          (vadd (vsub o.origin (cursorAfterCenter fixedCenter obs)) v)
        = vsub (vadd o.origin v) (cursorAfterCenter fixedCenter obs)
      simp only [vadd, vsub, Prod.mk.injEq]
      refine ⟨by ring, by ring, by ring⟩

/-- Witness for the amended C7 with a configured fixed center and one mesh. -/
theorem translateAll_spec_witness :
    (([houseMesh] : List XObj).filter (fun o => o.isMesh)).length ≠ 0
      ∧ ∃ out, translateAllToWorldOrigin (some (5, 6, 7)) [houseMesh]
          = Except.ok out
        ∧ (∀ c, (some ((5 : ℚ), (6 : ℚ), (7 : ℚ))) = some c →
            cursorAfterCenter (some (5, 6, 7)) [houseMesh] = (c.1, c.2.1, 0))
        ∧ ((some ((5 : ℚ), (6 : ℚ), (7 : ℚ))) = none →
            (cursorAfterCenter (some (5, 6, 7)) [houseMesh]).1
                * ((([houseMesh] : List XObj).filter (fun o => o.isMesh)).length : ℚ)
              = ((([houseMesh] : List XObj).filter (fun o => o.isMesh)).map
                  (fun o => o.origin.1)).sum
            ∧ (cursorAfterCenter (some (5, 6, 7)) [houseMesh]).2.1
                * ((([houseMesh] : List XObj).filter (fun o => o.isMesh)).length : ℚ)
              = ((([houseMesh] : List XObj).filter (fun o => o.isMesh)).map
                  (fun o => o.origin.2.1)).sum
            ∧ (cursorAfterCenter (some (5, 6, 7)) [houseMesh]).2.2 = 0)
        ∧ (∀ o ∈ ([houseMesh] : List XObj),
            recenteredObj (cursorAfterCenter (some (5, 6, 7)) [houseMesh]) o ∈ out)
        ∧ ∀ o ∈ ([houseMesh] : List XObj), ∃ o2 ∈ out, o2.name = o.name
            ∧ o2.origin = (0, 0, 0)
            ∧ worldVerts o2 = (worldVerts o).map
                (fun v => vsub v (cursorAfterCenter (some (5, 6, 7)) [houseMesh])) :=
  ⟨by decide, translateAll_spec (some (5, 6, 7)) [houseMesh] (by decide)⟩

/-! ## `reparent_children_to_grandparent` (script lines 975-988; C5)

Scene-graph objects carry a local translation (`matrix_basis`), a
parent-inverse translation (`matrix_parent_inverse`) and an optional parent
reference; transforms at this stage of the pipeline are pure translations,
modelled over `ℤ` (exact arithmetic).  `matrix_world` composes as
`parent.matrix_world + matrix_parent_inverse + matrix_basis`. -/

structure SGObj where
  name : String
  parent : Option String
  loc : ℤ × ℤ × ℤ
  parentInv : ℤ × ℤ × ℤ
  deriving DecidableEq

def findObj (scene : List SGObj) (n : String) : Option SGObj :=
  scene.find? (fun o => o.name = n)

/-- `matrix_world.translation`, computed through the parent chain; the fuel
argument (instantiated with the scene size) bounds the chain length, so a
parent cycle — impossible in Blender — evaluates to the origin instead of
diverging. -/
def worldOf (scene : List SGObj) : ℕ → String → ℤ × ℤ × ℤ
  | 0, _ => (0, 0, 0)
  | fuel + 1, n =>
      match findObj scene n with
      | none => (0, 0, 0)
      | some ob =>
          match ob.parent with
          | none => ob.loc
          | some pn => vadd (vadd (worldOf scene fuel pn) ob.parentInv) ob.loc

def world (scene : List SGObj) (n : String) : ℤ × ℤ × ℤ :=
  worldOf scene scene.length n

/-- World translation of an object whose parent's world translation is
`pw`. -/
def objWorld (pw : ℤ × ℤ × ℤ) (o : SGObj) : ℤ × ℤ × ℤ :=
  vadd (vadd pw o.parentInv) o.loc

/-- Python `str.replace` helper: scan left to right, replacing each
non-overlapping occurrence of `pat`; the fuel (seeded with the text length)
only bounds the recursion and is never exhausted for a nonempty pattern. -/
def strReplaceAux (pat rep : List Char) : ℕ → List Char → List Char
  | 0, s => s
  | _ + 1, [] => []
  | fuel + 1, c :: cs =>
      if pat ≠ [] ∧ pat.isPrefixOf (c :: cs)
      then rep ++ strReplaceAux pat rep fuel ((c :: cs).drop pat.length)
      else c :: strReplaceAux pat rep fuel cs

/-- Python `s.replace(pat, rep)` (replaces every occurrence; an empty
pattern interleaves `rep` around every character). -/
def strReplace (s pat rep : String) : String :=
  if pat.data = []
  then ⟨rep.data ++ (s.data.map (fun c => c :: rep.data)).flatten⟩
  else ⟨strReplaceAux pat.data rep.data s.data.length s.data⟩

/-- `delete_object(ob)` on a scene (lines 1036-1038). -/
def deleteObject (scene : List SGObj) (n : String) : List SGObj :=
  scene.filter (fun o => o.name ≠ n)

lemma vadd_vneg_cancel (w v : ℤ × ℤ × ℤ) : vadd (vadd w (vneg w)) v = v := by
  rcases w with ⟨w1, w2, w3⟩
  rcases v with ⟨v1, v2, v3⟩
  simp [vadd, vneg]

/-- `reparent_children_to_grandparent(parent_ob)` (script lines 975-988):
`grandparent_ob = parent_ob.parent`; every child of `parent_ob` is given
`parent = grandparent_ob`, its parent-inverse is recomputed as the inverse
of the new parent's world matrix, and every occurrence of the parent's name
in the child's name is replaced by the grandparent's name.  When
`parent_ob.parent` is `None` the source dereferences
`grandparent_ob.matrix_world` and raises, provided a child exists. -/
def reparentChildrenToGrandparent (scene : List SGObj) (p : String) :
    Except String (List SGObj) :=
  match findObj scene p with
  | none => Except.error "object not found"
  | some pob =>
      match pob.parent with
      | none =>
          if scene.any (fun o => o.parent = some p)
          then Except.error "AttributeError: NoneType has no matrix_world"
          else Except.ok scene
      | some gp =>
          Except.ok (scene.map (fun o =>
            if o.parent = some p then
              { o with
                  parent := some gp
                  parentInv := vneg (world scene gp)
                  name := strReplace o.name p gp }
            else o))

/-- Architectural parent used by the C5 counterexample scene. -/
def archObj : SGObj := ⟨"Arch", none, (0, 0, 0), (0, 0, 0)⟩

/-- The source wall, child of `Arch`. -/
def wallObj : SGObj := ⟨"Wall", some "Arch", (5, 0, 0), (0, 0, 0)⟩

/-- The collision proxy, child of the source wall (as built by
`create_inplace_copy_of`: parent = source, parent-inverse = the inverse of
the source's world matrix). -/
def proxyObj : SGObj := ⟨"Wall_blank", some "Wall", (5, 0, 0), (-5, 0, 0)⟩

/-- A convex hull output by decomposition, child of the proxy. -/
def hullObj : SGObj := ⟨"Wall_blank_hull_01", some "Wall_blank", (5, 0, 0), (-5, 0, 0)⟩

/-- The hull object as the function actually leaves it. -/
def hullAfter : SGObj := ⟨"Wall_hull_01", some "Wall", (5, 0, 0), (-5, 0, 0)⟩

/-- C5 counterexample: on a scene `Arch ← Wall ← Wall_blank ← hull`, the
function reparents the proxy's child to `Wall` — the proxy's *parent*, the
source object itself — and renames it by substituting the *source's* name,
not to the proxy's grandparent `Arch` (the architectural parent of the
source) as the claim states. -/
theorem reparent_counterexample :
    reparentChildrenToGrandparent [archObj, wallObj, proxyObj, hullObj] "Wall_blank"
        = Except.ok [archObj, wallObj, proxyObj, hullAfter]
      ∧ hullAfter.parent = some "Wall"
      ∧ hullAfter.parent ≠ some "Arch"
      ∧ hullAfter.name = "Wall_hull_01"
      ∧ hullAfter.name ≠ "Arch_hull_01" :=
  ⟨rfl, rfl, by decide, rfl, by decide⟩

/-- C5 (amended): every child of the proxy is reparented to the proxy's
*parent* — the source object the proxy was copied from — with its
parent-inverse recomputed as the inverse of that object's world matrix
(which preserves the child's world transform, since the child's world
translation both before, under the standard proxy inverse, and after equals
its local translation); each child's name has the proxy's name replaced by
the proxy's parent's name throughout; all other objects are untouched; no
object has the proxy as parent afterwards, and deleting the proxy then
removes it from the scene. -/
theorem reparent_spec (scene : List SGObj) (p gp : String) (pob : SGObj)
    (hp : findObj scene p = some pob)
    (hgp : pob.parent = some gp)
    (hne : gp ≠ p) :
    ∃ out, reparentChildrenToGrandparent scene p = Except.ok out
      ∧ (∀ c ∈ scene, c.parent = some p →
          { c with
              parent := some gp
              parentInv := vneg (world scene gp)
              name := strReplace c.name p gp } ∈ out)
      ∧ (∀ c ∈ scene, c.parent ≠ some p → c ∈ out)
      ∧ (∀ c ∈ out, c.parent ≠ some p)
      ∧ (∀ c : SGObj, c.parentInv = vneg (world scene p) →
          objWorld (world scene p) c = c.loc)
      ∧ (∀ c : SGObj,
          objWorld (world scene gp)
            { c with
                parent := some gp
                parentInv := vneg (world scene gp)
                name := strReplace c.name p gp } = c.loc)
      ∧ findObj (deleteObject
          (scene.map (fun o =>
            if o.parent = some p then
              { o with
                  parent := some gp
                  parentInv := vneg (world scene gp)
                  name := strReplace o.name p gp }
            else o)) p) p = none := by
  refine ⟨scene.map (fun o =>
      if o.parent = some p then
        { o with
            parent := some gp
            parentInv := vneg (world scene gp)
            name := strReplace o.name p gp }
      else o), ?_, ?_, ?_, ?_, ?_, ?_, ?_⟩
  · simp only [reparentChildrenToGrandparent, hp, hgp]
  · intro c hc hcp
    have : (if c.parent = some p then
        ({ c with
            parent := some gp
            parentInv := vneg (world scene gp)
            name := strReplace c.name p gp } : SGObj)
      else c) = { c with
          parent := some gp
          parentInv := vneg (world scene gp)
          name := strReplace c.name p gp } := if_pos hcp
    exact this ▸ List.mem_map_of_mem _ hc
  · intro c hc hcp
    have : (if c.parent = some p then
        ({ c with
            parent := some gp
            parentInv := vneg (world scene gp)
            name := strReplace c.name p gp } : SGObj)
      else c) = c := if_neg hcp
    exact this ▸ List.mem_map_of_mem _ hc
  · intro c hc
    obtain ⟨o, _, rfl⟩ := List.mem_map.mp hc
    by_cases hop : o.parent = some p
    · rw [if_pos hop]
      intro h
      exact hne (Option.some.inj h)
    · rw [if_neg hop]
      exact hop
  · intro c hcinv
    rw [objWorld, hcinv]
    exact vadd_vneg_cancel _ _
  · intro c
    show vadd (vadd (world scene gp) (vneg (world scene gp))) c.loc = c.loc
    exact vadd_vneg_cancel _ _
  · rw [findObj, List.find?_eq_none]
    intro o ho
    simp only [deleteObject] at ho
    have h2 := (List.mem_filter.mp ho).2
    simp only [decide_eq_true_eq] at h2 ⊢
    exact h2

/-- The pipeline-shaped witness scene for the amended C5: a top-level
source, its proxy, and one hull child. -/
def srcTop : SGObj := ⟨"Wall", none, (5, 0, 0), (0, 0, 0)⟩

def proxyOfTop : SGObj := ⟨"Wall_blank", some "Wall", (5, 0, 0), (-5, 0, 0)⟩

def hullOfTop : SGObj := ⟨"Wall_blank_hull_01", some "Wall_blank", (5, 0, 0), (-5, 0, 0)⟩

/-- Witness for the amended C5 on the pipeline-shaped scene. -/
theorem reparent_spec_witness :
    findObj [srcTop, proxyOfTop, hullOfTop] "Wall_blank" = some proxyOfTop
      ∧ ∃ out, reparentChildrenToGrandparent [srcTop, proxyOfTop, hullOfTop]
          "Wall_blank" = Except.ok out
        ∧ (∀ c ∈ [srcTop, proxyOfTop, hullOfTop], c.parent = some "Wall_blank" →
            { c with
                parent := some "Wall"
                parentInv := vneg (world [srcTop, proxyOfTop, hullOfTop] "Wall")
                name := strReplace c.name "Wall_blank" "Wall" } ∈ out)
        ∧ (∀ c ∈ [srcTop, proxyOfTop, hullOfTop], c.parent ≠ some "Wall_blank" →
            c ∈ out)
        ∧ (∀ c ∈ out, c.parent ≠ some "Wall_blank")
        ∧ (∀ c : SGObj,
            c.parentInv = vneg (world [srcTop, proxyOfTop, hullOfTop] "Wall_blank") →
            objWorld (world [srcTop, proxyOfTop, hullOfTop] "Wall_blank") c = c.loc)
        ∧ (∀ c : SGObj,
            objWorld (world [srcTop, proxyOfTop, hullOfTop] "Wall")
              { c with
                  parent := some "Wall"
                  parentInv := vneg (world [srcTop, proxyOfTop, hullOfTop] "Wall")
                  name := strReplace c.name "Wall_blank" "Wall" } = c.loc)
        ∧ findObj (deleteObject
            (([srcTop, proxyOfTop, hullOfTop] : List SGObj).map (fun o =>
              if o.parent = some "Wall_blank" then
                { o with
                    parent := some "Wall"
                    parentInv := vneg (world [srcTop, proxyOfTop, hullOfTop] "Wall")
                    name := strReplace o.name "Wall_blank" "Wall" }
              else o)) "Wall_blank") "Wall_blank" = none :=
  ⟨by decide,
    reparent_spec [srcTop, proxyOfTop, hullOfTop] "Wall_blank" "Wall" proxyOfTop
      (by decide) (by decide) (by decide)⟩

/-! ## Failure semantics of collision generation
(script lines 709-749, 1345-1358; C3)

`generate_basic_collision` (like the roof and slab variants) loops over the
eligible objects and, per object, invokes the external geometry services:
convex hull (`make_convex_hull`), boolean subtraction and remesh (inside
`carve_openings_in_collision_mesh`), and convex decomposition
(`decompose_into_convex_parts`).  None of these calls sits inside a
`try`/`except` — the only `try` in the whole script guards the FBX export —
so a raised exception propagates out of the loop and aborts the run.  The
services are modelled as an oracle mapping the object being processed to an
optional raised error. -/

inductive GeomErr where
  | hullFailed
  | booleanFailed
  | remeshFailed
  | decomposeFailed
  deriving DecidableEq

/-- The external geometry services, as outcome oracles per object name. -/
structure GeomServices where
  hull : String → Option GeomErr
  boolean : String → Option GeomErr
  remesh : String → Option GeomErr
  decompose : String → Option GeomErr

/-- The body of the `generate_basic_collision` loop for one source object:
hull, then opening carving (boolean subtraction followed by remesh), then
convex decomposition; the first exception raised propagates. -/
def processBasicOne (svc : GeomServices) (n : String) : Option GeomErr :=
  match svc.hull n with
  | some e => some e
  | none =>
      match svc.boolean n with
      | some e => some e
      | none =>
          match svc.remesh n with
          | some e => some e
          | none => svc.decompose n

/-- The `generate_basic_collision` loop over the eligible objects: returns
the list of objects whose processing was attempted and, if an exception was
raised, the object and error that aborted the loop (everything after it is
never attempted — there is no per-object `except`). -/
def generateBasicCollision (svc : GeomServices) (names : List String) :
    List String × Option (String × GeomErr) :=
  match names with
  | [] => ([], none)
  | n :: rest =>
      match processBasicOne svc n with
      | some e => ([n], some (n, e))
      | none =>
          let r := generateBasicCollision svc rest
          (n :: r.1, r.2)

/-- A service oracle whose convex decomposition always raises. -/
def decomposeAlwaysFails : GeomServices :=
  ⟨fun _ => none, fun _ => none, fun _ => none, fun _ => some GeomErr.decomposeFailed⟩

/-- C3 counterexample: with two eligible walls and a convex-decomposition
service that raises, the run aborts at the first wall — the error is not
caught, and the second wall is never processed — contradicting "the failure
is caught per object ... and the pipeline continues with the next object". -/
theorem collisionFailure_counterexample :
    generateBasicCollision decomposeAlwaysFails
        ["BackPorch_Wall_01", "BackPorch_Wall_02"]
      = (["BackPorch_Wall_01"],
         some ("BackPorch_Wall_01", GeomErr.decomposeFailed))
      ∧ (["BackPorch_Wall_01"] : List String)
          ≠ ["BackPorch_Wall_01", "BackPorch_Wall_02"] :=
  ⟨rfl, by decide⟩

/-- C3 (amended): a geometry-service failure during collision generation is
*not* caught per object: the first failing object aborts the whole
procedure — the objects before it are processed, the failing object's error
propagates, and the objects after it are never attempted.  Only when every
service call succeeds does the loop visit every object and finish without
error.  (The only exception handler in the script is around the FBX export
of each collection.) -/
theorem collisionFailure_aborts (svc : GeomServices) (pre post : List String)
    (n : String) (e : GeomErr)
    (hpre : ∀ m ∈ pre, processBasicOne svc m = none)
    (hn : processBasicOne svc n = some e) :
    generateBasicCollision svc (pre ++ n :: post) = (pre ++ [n], some (n, e))
      ∧ ∀ names : List String, (∀ m ∈ names, processBasicOne svc m = none) →
          generateBasicCollision svc names = (names, none) := by
  constructor
  · induction pre with
    | nil =>
        simp only [List.nil_append, generateBasicCollision, hn]
    | cons m ms ih =>
        have hm : processBasicOne svc m = none := hpre m (by simp)
        have ih2 := ih (fun x hx => hpre x (by simp [hx]))
        simp only [List.cons_append, generateBasicCollision, hm, List.append_eq, ih2]
  · intro names hall
    induction names with
    | nil => rfl
    | cons m ms ih =>
        have hm : processBasicOne svc m = none := hall m (by simp)
        have ih2 := ih (fun x hx => hall x (by simp [hx]))
        simp only [generateBasicCollision, hm, List.append_eq, ih2]

/-- A service oracle that raises only while decomposing `Porch_Wall_01`. -/
def failsOnWall01 : GeomServices :=
  ⟨fun _ => none, fun _ => none, fun _ => none,
   fun n => if n = "Porch_Wall_01" then some GeomErr.decomposeFailed else none⟩

/-- Witness for the amended C3 with one object before and one after the
failing wall. -/
theorem collisionFailure_aborts_witness :
    generateBasicCollision failsOnWall01
        (["Porch_Post_01"] ++ "Porch_Wall_01" :: ["Porch_Wall_02"])
      = (["Porch_Post_01"] ++ ["Porch_Wall_01"],
         some ("Porch_Wall_01", GeomErr.decomposeFailed))
      ∧ ∀ names : List String,
          (∀ m ∈ names, processBasicOne failsOnWall01 m = none) →
          generateBasicCollision failsOnWall01 names = (names, none) :=
  collisionFailure_aborts failsOnWall01 ["Porch_Post_01"] ["Porch_Wall_02"]
    "Porch_Wall_01" GeomErr.decomposeFailed (by decide) (by decide)

/-! ## `generate_diffuse_uvs` (script lines 466-548; C2, C8)

The continuous-UV selection pattern is a Boolean tag on names (the script
compiles `continuous_uv_regex` once; both claims quantify over "objects
tagged CONTINUOUS_UV", so the tag is a parameter here).  UV layers are not
part of the data model — cube projection touches only UV data.  The model
follows the function's control flow: select the tagged meshes, save each
one's name and `users_collection[0].name` (an `IndexError` if an object is
in no collection), `join_objects` them, rename the result to
`temp_joined_continuous_objects` — note this renames the *sole tagged
object itself* when only one matched, since `join_objects` returns it
unchanged — project, then for each saved name find the stashed vertex group
(`KeyError` when missing), split those vertices out, restore name and
collection, clear the split object's vertex groups, and delete the emptied
joined object. -/

def collectSaved (colls : CollState) :
    List MeshObj → Except String (List (String × String))
  | [] => Except.ok []
  | o :: rest =>
      match (memberships colls o.name).head? with
      | none => Except.error "IndexError: users_collection"
      | some cn => (collectSaved colls rest).map (fun l => (o.name, cn) :: l)

/-- Blender `mesh.separate(type='SELECTED')` on the vertices of one vertex
group: the vertices at the given indices (with the faces they carry) move
into a new object; the vertex groups of both sides keep their surviving
vertices, renumbered by position. -/
def separateByGroup (j : MeshObj) (idxs : List ℕ) : MeshObj × MeshObj :=
  let sel := (List.range j.verts.length).filter (fun i => i ∈ idxs)
  let keep := (List.range j.verts.length).filter (fun i => i ∉ idxs)
  let remap := fun (positions : List ℕ) (g : List ℕ) =>
    (g.filter (fun i => i ∈ positions)).map (fun i => positions.indexOf i)
  ({ name := j.name
     verts := sel.filterMap (fun i => j.verts[i]?)
     vgroups := j.vgroups.map (fun g => (g.1, remap sel g.2)) },
   { j with
       verts := keep.filterMap (fun i => j.verts[i]?)
       vgroups := j.vgroups.map (fun g => (g.1, remap keep g.2)) })

/-- The split-restore loop of `generate_diffuse_uvs` (lines 509-546),
ending with `delete_object(joined_ob)`. -/
def splitLoop (colls : CollState) (others : List MeshObj) (j : MeshObj) :
    List (String × String) → Except String (List MeshObj × CollState)
  | [] => Except.ok (others, colls)
  | (nm, cn) :: rest =>
      match j.vgroups.find? (fun g => g.1 = nm) with
      | none => Except.error ("KeyError: Could not locate vertex group: " ++ nm)
      | some g =>
          splitLoop (setParentCollection colls nm cn)
            (others ++ [{ (separateByGroup j g.2).1 with name := nm, vgroups := [] }])
            (separateByGroup j g.2).2 rest

/-- `generate_diffuse_uvs` over the mesh objects and the collection store. -/
def generateDiffuseUvs (isCont : String → Bool) (objs : List MeshObj)
    (colls : CollState) : Except String (List MeshObj × CollState) :=
  let cont := objs.filter (fun o => isCont o.name)
  let others := objs.filter (fun o => ! isCont o.name)
  match collectSaved colls cont with
  | Except.error e => Except.error e
  | Except.ok saved =>
      match (joinObjects cont).1 with
      | none => Except.error "AttributeError: None has no attribute name"
      | some j =>
          splitLoop colls others
            { j with name := "temp_joined_continuous_objects" } saved

/-- The one wall tagged CONTINUOUS_UV in the C2 failing scene. -/
def loneWall : MeshObj := ⟨"Porch_Wall_01", [(0, 0, 0), (1, 0, 0)], []⟩

def loneColls : CollState := ⟨[("SM_Porch_Wall_01", ["Porch_Wall_01"])]⟩

/-- C2's failing input, evaluated: with *exactly one* object tagged
CONTINUOUS_UV, `join_objects` returns that object itself with no
name-stashing vertex group, `generate_diffuse_uvs` renames it to
`temp_joined_continuous_objects`, and the split-restore loop then raises
`KeyError` — object names are destroyed, not preserved, so the claimed
round-trip invariant is the intent (backed by the function's own docstring)
and the code violates it at this input. -/
theorem generateDiffuseUvs_singleton_crash :
    generateDiffuseUvs (fun n => n = "Porch_Wall_01") [loneWall] loneColls
      = Except.error "KeyError: Could not locate vertex group: Porch_Wall_01" :=
  rfl

/-- A mesh that no pattern of the pipeline tags or selects. -/
def plainMesh : MeshObj := ⟨"Thing", [(0, 0, 0)], []⟩

/-- A non-slab object for the zero-slab no-op check. -/
def nonSlab : SlabObj := ⟨"Wall", (0, 0, 1, 0), []⟩

/-- C8's failing input, evaluated, next to the zero-match behaviours that do
hold: with zero objects tagged CONTINUOUS_UV, `generate_diffuse_uvs`
dereferences the `None` that `join_objects` documents returning for an
empty list (`joined_ob.name = ...` raises `AttributeError`) instead of
being a no-op; whereas zero slabs make `assign_slab_names` a no-op, zero
eligible objects make the basic-collision loop a no-op, and the recentering
step with zero meshes aborts on its `assert`, as the claim states. -/
theorem generateDiffuseUvs_empty_crash :
    generateDiffuseUvs (fun _ => false) [plainMesh] loneColls
        = Except.error "AttributeError: None has no attribute name"
      ∧ assignSlabNames [nonSlab] = [nonSlab]
      ∧ generateBasicCollision decomposeAlwaysFails [] = ([], none)
      ∧ translateAllToWorldOrigin none [] = Except.error "AssertionError" :=
  ⟨rfl, by decide, rfl, rfl⟩

/-! ## The name grammar (`element_regex_str`, script lines 115-134; C1)

The pattern is

```
^SM_(?P<Room>(?:[^_]+))_(?P<Element>(?:
   (?:(?:Conduit(?:_\d{2})?_)?(?:Closet_)?)
   (?:CeilingTrim
   |Ceiling(?:_\d{2})?
   |Floor(?:_\d{2}_Slab)?
   |(?:Stair)?Wall_\d{2}(?:_(?:(?:Moulding_(?:Base|Crown)_(?:Left|Right))
     |(?:Garden)?Window(?:_\d{2})?(?:_Opening)?
     |Door_\d{2}(?:_Opening)?
     |Opening(?:_\d{2})?))?
   |WallPanel(?:_\d{2})?
   |Roof(?:_\d{2})?(?:_(?:Gable|Hole|Side|SegmentedSide|Vent)(?:_\d{2})?)?
        (?:_Window_\d{2}(?:_Opening)?)?
   |Post(?:_\d{2})?
   |Stairs(?:_Opening)?(?:_\d{2})?
   |Conduit
   |Tub_Shelf))
   (?:_Placeholder(?:_\d{2})?)?)?
 (?P<Garbage>_.*)?$
```

Every literal piece of the pattern (a keyword such as `Ceiling`, a compound
keyword such as `StairWall`/`GardenWindow`/`CeilingTrim`, or `\d{2}`) is
followed inside the pattern either by a literal `_`, by the optional
`(?P<Garbage>_.*)`, or by `$`.  A match therefore always aligns those
pieces with complete `_`-separated segments of the subject, so the regex is
embedded as a parser over the list of `_`-separated tokens of the name,
with Python's ordered alternation and greedy options reproduced by the
attempt order below.  Because `(?P<Garbage>_.*)?$` succeeds at every token
boundary, a greedy option inside `Element` never needs to backtrack for the
benefit of what follows `Element`; backtracking is only needed across the
`(?:Conduit(?:_\d{2})?_)?(?:Closet_)?` prefixes, which the ordered attempts
of `matchG1` implement. -/

/-- Does a token consist of exactly two digits (`\d{2}` between two
separators)? -/
def isTwoDigitTok (t : String) : Bool :=
  match t.data with
  | [a, b] => a.isDigit && b.isDigit
  | _ => false

/-- Greedy `(?:_\d{2})?` at a token boundary. -/
def optDigits : List String → List String × List String
  | [] => ([], [])
  | d :: rest => if isTwoDigitTok d then ([d], rest) else ([], d :: rest)

/-- Greedy `(?:_<kw>)?` at a token boundary. -/
def optTok (kw : String) : List String → List String × List String
  | [] => ([], [])
  | t :: rest => if t = kw then ([t], rest) else ([], t :: rest)

/-- The optional sub-feature of a wall:
`(?:_(?:Moulding_(?:Base|Crown)_(?:Left|Right)
 |(?:Garden)?Window(?:_\d{2})?(?:_Opening)?
 |Door_\d{2}(?:_Opening)?|Opening(?:_\d{2})?))?`. -/
def matchWallSub (ts : List String) : List String × List String :=
  match ts with
  | [] => ([], [])
  | t :: rest =>
      if t = "Moulding" then
        match rest with
        | bc :: lr :: rest2 =>
            if (bc = "Base" ∨ bc = "Crown") ∧ (lr = "Left" ∨ lr = "Right")
            then ([t, bc, lr], rest2) else ([], ts)
        | _ => ([], ts)
      else if t = "Window" ∨ t = "GardenWindow" then
        let p1 := optDigits rest
        let p2 := optTok "Opening" p1.2
        (t :: (p1.1 ++ p2.1), p2.2)
      else if t = "Door" then
        match rest with
        | d :: rest2 =>
            if isTwoDigitTok d then
              let p2 := optTok "Opening" rest2
              (t :: d :: p2.1, p2.2)
            else ([], ts)
        | [] => ([], ts)
      else if t = "Opening" then
        let p1 := optDigits rest
        (t :: p1.1, p1.2)
      else ([], ts)

/-- `(?:_(?:Gable|Hole|Side|SegmentedSide|Vent)(?:_\d{2})?)?`. -/
def matchRoofFeat (ts : List String) : List String × List String :=
  match ts with
  | [] => ([], [])
  | t :: rest =>
      if t = "Gable" ∨ t = "Hole" ∨ t = "Side" ∨ t = "SegmentedSide" ∨ t = "Vent"
      then
        let p1 := optDigits rest
        (t :: p1.1, p1.2)
      else ([], ts)

/-- `(?:_Window_\d{2}(?:_Opening)?)?`. -/
def matchRoofWin (ts : List String) : List String × List String :=
  match ts with
  | t :: d :: rest =>
      if t = "Window" ∧ isTwoDigitTok d then
        let p2 := optTok "Opening" rest
        (t :: d :: p2.1, p2.2)
      else ([], ts)
  | _ => ([], ts)

/-- The main body alternation, tried in the pattern's order.  `none` means
the alternation cannot match here at all. -/
def matchBody (ts : List String) : Option (List String × List String) :=
  match ts with
  | [] => none
  | t :: rest =>
      if t = "CeilingTrim" then some ([t], rest)
      else if t = "Ceiling" then
        let p := optDigits rest
        some (t :: p.1, p.2)
      else if t = "Floor" then
        match rest with
        | d :: s :: rest2 =>
            if isTwoDigitTok d ∧ s = "Slab" then some ([t, d, s], rest2)
            else some ([t], rest)
        | _ => some ([t], rest)
      else if t = "StairWall" ∨ t = "Wall" then
        match rest with
        | d :: rest2 =>
            if isTwoDigitTok d then
              let p := matchWallSub rest2
              some (t :: d :: p.1, p.2)
            else none
        | [] => none
      else if t = "WallPanel" then
        let p := optDigits rest
        some (t :: p.1, p.2)
      else if t = "Roof" then
        let p1 := optDigits rest
        let p2 := matchRoofFeat p1.2
        let p3 := matchRoofWin p2.2
        some (t :: (p1.1 ++ p2.1 ++ p3.1), p3.2)
      else if t = "Post" then
        let p := optDigits rest
        some (t :: p.1, p.2)
      else if t = "Stairs" then
        let p1 := optTok "Opening" rest
        let p2 := optDigits p1.2
        some (t :: (p1.1 ++ p2.1), p2.2)
      else if t = "Conduit" then some ([t], rest)
      else if t = "Tub" then
        match rest with
        | s :: rest2 => if s = "Shelf" then some ([t, s], rest2) else none
        | [] => none
      else none

/-- `(?:Closet_)?` then the body: the greedy attempt takes `Closet` first
and falls back to the body alone. -/
def matchClosetBody (ts : List String) : Option (List String × List String) :=
  match ts with
  | [] => none
  | t :: rest =>
      if t = "Closet" then
        match matchBody rest with
        | some p => some (t :: p.1, p.2)
        | none => matchBody ts
      else matchBody ts

/-- `(?:Conduit(?:_\d{2})?_)?` before `matchClosetBody`, without the digit
option (second and third backtracking attempts). -/
def matchConduitNoDigits (ts : List String) : Option (List String × List String) :=
  match ts with
  | [] => none
  | t :: rest =>
      if t = "Conduit" then
        match matchClosetBody rest with
        | some p => some (t :: p.1, p.2)
        | none => matchClosetBody ts
      else matchClosetBody ts

/-- The full prefix-plus-body group
`(?:(?:Conduit(?:_\d{2})?_)?(?:Closet_)?)(?:...)`, with Python's
backtracking order: conduit-with-digits, conduit-without-digits, no
conduit; inside each, closet first, then no closet. -/
def matchG1 (ts : List String) : Option (List String × List String) :=
  match ts with
  | t :: d :: rest =>
      if t = "Conduit" ∧ isTwoDigitTok d then
        match matchClosetBody rest with
        | some p => some (t :: d :: p.1, p.2)
        | none => matchConduitNoDigits ts
      else matchConduitNoDigits ts
  | _ => matchConduitNoDigits ts

/-- `(?:_Placeholder(?:_\d{2})?)?`. -/
def matchPlac (ts : List String) : List String × List String :=
  match ts with
  | [] => ([], [])
  | t :: rest =>
      if t = "Placeholder" then
        let p := optDigits rest
        (t :: p.1, p.2)
      else ([], ts)

/-- The whole optional `Element` group. -/
def matchElement (ts : List String) : Option (List String × List String) :=
  match matchG1 ts with
  | some p =>
      let q := matchPlac p.2
      some (p.1 ++ q.1, q.2)
  | none => none

/-- The result of `element_regex.match`: the three named capture groups. -/
structure NameMatch where
  room : String
  element : Option String
  garbage : Option String
  deriving DecidableEq

/-- Join tokens with `_` (inverse of splitting a name at its separators). -/
def joinU : List String → String
  | [] => ""
  | [t] => t
  | t :: t2 :: ts => t ++ "_" ++ joinU (t2 :: ts)

/-- Split a character list at every `_`. -/
def splitU : List Char → List String
  | [] => [""]
  | c :: cs =>
      if c = '_' then "" :: splitU cs
      else
        match splitU cs with
        | t :: ts => (⟨c :: t.data⟩ : String) :: ts
        | [] => [⟨[c]⟩]

/-- `element_regex.match(name)`, over the token list: `^SM_` and the
non-empty `Room` pin the first two tokens; the optional `Element` is tried
greedily; the remainder is the `Garbage` group when it begins with `_`
(always true at a token boundary), absent when the name ends with the
element, and the whole match fails when an element-less remainder does not
begin with `_`. -/
def parseToks (ts : List String) : Option NameMatch :=
  match ts with
  | sm :: room :: rest =>
      if sm = "SM" ∧ room ≠ "" ∧ rest ≠ [] then
        match matchElement rest with
        | some p =>
            some ⟨room, some (joinU p.1),
              if p.2 = [] then none else some ("_" ++ joinU p.2)⟩
        | none =>
            match rest with
            | [] => none
            | r1 :: rrest =>
                if r1 = "" then
                  if rrest = [] then some ⟨room, none, none⟩
                  else some ⟨room, none, some (joinU rest)⟩
                else none
      else none
  | _ => none

/-- `element_regex.match` on the raw name string. -/
def parse (s : String) : Option NameMatch := parseToks (splitU s.data)

example :
    parse "SM_BackPorch_Wall_01_Window_01_Opening_3NNYrtBLj4IuQQHSklD4i3"
      = some ⟨"BackPorch", some "Wall_01_Window_01_Opening",
              some "_3NNYrtBLj4IuQQHSklD4i3"⟩ := by decide

example :
    parse "SM_BackPorch_Ceiling_0c_n7s8x13_eOFCzcBLIak"
      = some ⟨"BackPorch", some "Ceiling", some "_0c_n7s8x13_eOFCzcBLIak"⟩ := by
  decide

example :
    parse "SM_BackStairwell_Roof_SegmentedSide_01_3aeIOLKYL9fOZSqIxV$Mkl"
      = some ⟨"BackStairwell", some "Roof_SegmentedSide_01",
              some "_3aeIOLKYL9fOZSqIxV$Mkl"⟩ := by decide

example : parse "SM_House_Floor_02_Slab" = some ⟨"House", some "Floor_02_Slab", none⟩ := by
  decide

example : parse "SM_Kitchen_Ceiling_02" = some ⟨"Kitchen", some "Ceiling_02", none⟩ := by
  decide

example : parse "SM_Kitchen_Conduit_02_Closet_Stairs_Opening"
    = some ⟨"Kitchen", some "Conduit_02_Closet_Stairs_Opening", none⟩ := by decide

example : parse "SM_Kitchen_Conduit_02" = some ⟨"Kitchen", some "Conduit", some "_02"⟩ := by
  decide

example : parse "SM_Room_Porch_Ceiling" = none := by decide

example : parse "SM_Room_" = some ⟨"Room", none, none⟩ := by decide

example : parse "SM_Room__x" = some ⟨"Room", none, some "_x"⟩ := by decide

example : parse "SM_Room" = none := by decide

/-! ### The canonical-name grammar, as an inductive family

`Elem` enumerates exactly the strings the `Element` group of the pattern
can produce: optional `Conduit(_\d\d)?` prefix, optional `Closet` prefix, a
body alternative, and an optional `Placeholder(_\d\d)?` suffix.  Two-digit
fields are carried as strings constrained by the `wf` predicates. -/

inductive RoofFeat where
  | gable
  | hole
  | side
  | segmentedSide
  | vent
  deriving DecidableEq

def RoofFeat.tok : RoofFeat → String
  | gable => "Gable"
  | hole => "Hole"
  | side => "Side"
  | segmentedSide => "SegmentedSide"
  | vent => "Vent"

inductive WallSub where
  | moulding (crown : Bool) (right : Bool)
  | window (garden : Bool) (dd : Option String) (opening : Bool)
  | door (dd : String) (opening : Bool)
  | opening (dd : Option String)
  deriving DecidableEq

inductive Body where
  | ceilingTrim
  | ceiling (dd : Option String)
  | floor (slab : Option String)
  | wall (stair : Bool) (dd : String) (sub : Option WallSub)
  | wallPanel (dd : Option String)
  | roof (dd : Option String) (feat : Option (RoofFeat × Option String))
      (win : Option (String × Bool))
  | post (dd : Option String)
  | stairs (opening : Bool) (dd : Option String)
  | conduit
  | tubShelf
  deriving DecidableEq

structure Elem where
  conduitPre : Option (Option String)
  closetPre : Bool
  body : Body
  plac : Option (Option String)
  deriving DecidableEq

def optD : Option String → List String
  | none => []
  | some d => [d]

def boolTok (b : Bool) (kw : String) : List String := if b then [kw] else []

def WallSub.toks : WallSub → List String
  | .moulding c r =>
      ["Moulding", if c then "Crown" else "Base", if r then "Right" else "Left"]
  | .window g dd o =>
      (if g then "GardenWindow" else "Window") :: (optD dd ++ boolTok o "Opening")
  | .door dd o => "Door" :: dd :: boolTok o "Opening"
  | .opening dd => "Opening" :: optD dd

def Body.toks : Body → List String
  | .ceilingTrim => ["CeilingTrim"]
  | .ceiling dd => "Ceiling" :: optD dd
  | .floor s => "Floor" :: (match s with | none => [] | some d => [d, "Slab"])
  | .wall st dd sub =>
      (if st then "StairWall" else "Wall") :: dd ::
        (match sub with | none => [] | some w => w.toks)
  | .wallPanel dd => "WallPanel" :: optD dd
  | .roof dd feat win =>
      "Roof" :: (optD dd
        ++ (match feat with | none => [] | some p => p.1.tok :: optD p.2)
        ++ (match win with
            | none => []
            | some p => "Window" :: p.1 :: boolTok p.2 "Opening"))
  | .post dd => "Post" :: optD dd
  | .stairs o dd => "Stairs" :: (boolTok o "Opening" ++ optD dd)
  | .conduit => ["Conduit"]
  | .tubShelf => ["Tub", "Shelf"]

/-- The token list of the `Element` string of a canonical name. -/
def Elem.toks (e : Elem) : List String :=
  (match e.conduitPre with | none => [] | some dd => "Conduit" :: optD dd)
    ++ (if e.closetPre then ["Closet"] else [])
    ++ e.body.toks
    ++ (match e.plac with | none => [] | some dd => "Placeholder" :: optD dd)

def wfD : Option String → Bool
  | none => true
  | some d => isTwoDigitTok d

def WallSub.wf : WallSub → Bool
  | .moulding _ _ => true
  | .window _ dd _ => wfD dd
  | .door dd _ => isTwoDigitTok dd
  | .opening dd => wfD dd

def Body.wf : Body → Bool
  | .ceilingTrim => true
  | .ceiling dd => wfD dd
  | .floor s => wfD s
  | .wall _ dd sub =>
      isTwoDigitTok dd && (match sub with | none => true | some w => w.wf)
  | .wallPanel dd => wfD dd
  | .roof dd feat win =>
      wfD dd && (match feat with | none => true | some p => wfD p.2)
        && (match win with | none => true | some p => isTwoDigitTok p.1)
  | .post dd => wfD dd
  | .stairs _ dd => wfD dd
  | .conduit => true
  | .tubShelf => true

def Elem.wf (e : Elem) : Bool :=
  (match e.conduitPre with | none => true | some dd => wfD dd)
    && e.body.wf
    && (match e.plac with | none => true | some dd => wfD dd)

/-- The structural tokens of the grammar: every keyword the pattern can
consume at a token boundary, plus the two-digit numeric tokens. -/
def structuralToks : List String :=
  ["CeilingTrim", "Ceiling", "Floor", "Slab", "StairWall", "Wall", "WallPanel",
   "Roof", "Post", "Stairs", "Conduit", "Closet", "Tub", "Shelf",
   "Moulding", "Base", "Crown", "Left", "Right",
   "Window", "GardenWindow", "Door", "Opening",
   "Gable", "Hole", "Side", "SegmentedSide", "Vent", "Placeholder"]

def isStructuralTok (t : String) : Bool :=
  structuralToks.contains t || isTwoDigitTok t

example :
    parse ("SM_" ++ "BackPorch" ++ "_"
        ++ joinU (Elem.toks ⟨none, false,
            Body.wall false "01" (some (WallSub.window false (some "01") true)),
            none⟩))
      = some ⟨"BackPorch", some "Wall_01_Window_01_Opening", none⟩ := by decide

/-! ### Helper lemmas for the round-trip proof -/

/-- What may legally follow the element inside `matchBody`'s options: the
end of the name, a `Placeholder` suffix (handled after the body), or a
non-structural garbage token. -/
def BodySafe : List String → Prop
  | [] => True
  | t :: _ => isStructuralTok t = false ∨ t = "Placeholder"

/-- What may follow the whole element: the end of the name or a
non-structural garbage token. -/
def SafeHead : List String → Prop
  | [] => True
  | t :: _ => isStructuralTok t = false

lemma safeHead_bodySafe (ts : List String) (h : SafeHead ts) : BodySafe ts := by
  cases ts with
  | nil => trivial
  | cons t r => exact Or.inl h

lemma twoDigit_ne (d k : String) (hd : isTwoDigitTok d = true)
    (hk : isTwoDigitTok k = false) : d ≠ k := fun h => by
  rw [h, hk] at hd
  cases hd

lemma bodySafe_not2d (t : String) (r : List String) (h : BodySafe (t :: r)) :
    isTwoDigitTok t = false := by
  rcases h with h | h
  · simp only [isStructuralTok, Bool.or_eq_false_iff] at h
    exact h.2
  · rw [h]
    decide

lemma bodySafe_ne (t : String) (r : List String) (k : String)
    (h : BodySafe (t :: r)) (hk : structuralToks.contains k = true)
    (hkp : k ≠ "Placeholder") : t ≠ k := by
  rcases h with h | h
  · intro he
    subst he
    simp only [isStructuralTok, Bool.or_eq_false_iff] at h
    rw [hk] at h
    exact absurd h.1 (by simp)
  · rw [h]
    exact fun he => hkp he.symm

lemma optDigits_skip (ts : List String) (h : BodySafe ts) :
    optDigits ts = ([], ts) := by
  cases ts with
  | nil => rfl
  | cons t r => simp [optDigits, bodySafe_not2d t r h]

lemma optTok_skip (kw : String) (ts : List String) (h : BodySafe ts)
    (hk : structuralToks.contains kw = true) (hkp : kw ≠ "Placeholder") :
    optTok kw ts = ([], ts) := by
  cases ts with
  | nil => rfl
  | cons t r => simp [optTok, bodySafe_ne t r kw h hk hkp]

lemma optDigits_take (d : String) (ts : List String) (h : isTwoDigitTok d = true) :
    optDigits (d :: ts) = ([d], ts) := by
  simp [optDigits, h]

lemma optTok_take (kw : String) (ts : List String) :
    optTok kw (kw :: ts) = ([kw], ts) := by
  simp [optTok]

lemma matchWallSub_skip (ts : List String) (h : BodySafe ts) :
    matchWallSub ts = ([], ts) := by
  cases ts with
  | nil => rfl
  | cons t r =>
      have h1 := bodySafe_ne t r "Moulding" h (by decide) (by decide)
      have h2 := bodySafe_ne t r "Window" h (by decide) (by decide)
      have h3 := bodySafe_ne t r "GardenWindow" h (by decide) (by decide)
      have h4 := bodySafe_ne t r "Door" h (by decide) (by decide)
      have h5 := bodySafe_ne t r "Opening" h (by decide) (by decide)
      simp [matchWallSub, h1, h2, h3, h4, h5]

lemma matchRoofFeat_skip (ts : List String) (h : BodySafe ts) :
    matchRoofFeat ts = ([], ts) := by
  cases ts with
  | nil => rfl
  | cons t r =>
      have h1 := bodySafe_ne t r "Gable" h (by decide) (by decide)
      have h2 := bodySafe_ne t r "Hole" h (by decide) (by decide)
      have h3 := bodySafe_ne t r "Side" h (by decide) (by decide)
      have h4 := bodySafe_ne t r "SegmentedSide" h (by decide) (by decide)
      have h5 := bodySafe_ne t r "Vent" h (by decide) (by decide)
      simp [matchRoofFeat, h1, h2, h3, h4, h5]

lemma matchRoofWin_skip (ts : List String) (h : BodySafe ts) :
    matchRoofWin ts = ([], ts) := by
  match ts with
  | [] => rfl
  | [t] => rfl
  | t :: d :: r =>
      have h1 := bodySafe_ne t (d :: r) "Window" h (by decide) (by decide)
      simp [matchRoofWin, h1]

lemma safeHead_ne (t : String) (r : List String) (k : String)
    (h : SafeHead (t :: r)) (hk : structuralToks.contains k = true) : t ≠ k := by
  intro he
  subst he
  simp only [SafeHead, isStructuralTok, Bool.or_eq_false_iff] at h
  rw [hk] at h
  exact absurd h.1 (by simp)

lemma matchPlac_skip (ts : List String) (h : SafeHead ts) :
    matchPlac ts = ([], ts) := by
  cases ts with
  | nil => rfl
  | cons t r =>
      have h1 := safeHead_ne t r "Placeholder" h (by decide)
      simp [matchPlac, h1]

lemma matchBody_none (ts : List String) (h : BodySafe ts) :
    matchBody ts = none := by
  cases ts with
  | nil => rfl
  | cons t r =>
      have h1 := bodySafe_ne t r "CeilingTrim" h (by decide) (by decide)
      have h2 := bodySafe_ne t r "Ceiling" h (by decide) (by decide)
      have h3 := bodySafe_ne t r "Floor" h (by decide) (by decide)
      have h4 := bodySafe_ne t r "StairWall" h (by decide) (by decide)
      have h5 := bodySafe_ne t r "Wall" h (by decide) (by decide)
      have h6 := bodySafe_ne t r "WallPanel" h (by decide) (by decide)
      have h7 := bodySafe_ne t r "Roof" h (by decide) (by decide)
      have h8 := bodySafe_ne t r "Post" h (by decide) (by decide)
      have h9 := bodySafe_ne t r "Stairs" h (by decide) (by decide)
      have h10 := bodySafe_ne t r "Conduit" h (by decide) (by decide)
      have h11 := bodySafe_ne t r "Tub" h (by decide) (by decide)
      simp [matchBody, h1, h2, h3, h4, h5, h6, h7, h8, h9, h10, h11]

lemma matchClosetBody_none (ts : List String) (h : BodySafe ts) :
    matchClosetBody ts = none := by
  cases ts with
  | nil => rfl
  | cons t r =>
      have h1 := bodySafe_ne t r "Closet" h (by decide) (by decide)
      simp [matchClosetBody, h1, matchBody_none _ h]

lemma optDigits_skipOne (d : String) (ts : List String)
    (h : isTwoDigitTok d = false) : optDigits (d :: ts) = ([], d :: ts) := by
  simp [optDigits, h]

lemma matchRoofFeat_skipOne (t : String) (ts : List String)
    (h : ¬(t = "Gable" ∨ t = "Hole" ∨ t = "Side" ∨ t = "SegmentedSide"
      ∨ t = "Vent")) : matchRoofFeat (t :: ts) = ([], t :: ts) := by
  simp [matchRoofFeat, h]

lemma matchRoofWin_skipOne (t d : String) (ts : List String)
    (h : ¬(t = "Window" ∧ isTwoDigitTok d = true)) :
    matchRoofWin (t :: d :: ts) = ([], t :: d :: ts) := by
  simp only [matchRoofWin]
  rw [if_neg]
  exact fun hc => h ⟨hc.1, hc.2⟩

lemma optTok_skipOne (kw t : String) (ts : List String) (h : t ≠ kw) :
    optTok kw (t :: ts) = ([], t :: ts) := by
  simp [optTok, h]

lemma matchWallSub_toks (w : WallSub) (rest : List String) (hw : w.wf = true)
    (hr : BodySafe rest) : matchWallSub (w.toks ++ rest) = (w.toks, rest) := by
  cases w with
  | moulding c r =>
      cases c <;> cases r <;> simp [WallSub.toks, matchWallSub]
  | window g dd o =>
      simp only [WallSub.wf] at hw
      cases dd with
      | none =>
          cases g <;> cases o <;>
            simp [WallSub.toks, matchWallSub, optD, boolTok, optTok_take,
              optDigits_skip rest hr,
              optDigits_skipOne "Opening" rest (by decide),
              optTok_skip "Opening" rest hr (by decide) (by decide)]
      | some d =>
          simp only [wfD] at hw
          cases g <;> cases o <;>
            simp [WallSub.toks, matchWallSub, optD, boolTok, optTok_take, hw,
              optDigits_take, optDigits_skip rest hr,
              optTok_skip "Opening" rest hr (by decide) (by decide)]
  | door dd o =>
      simp only [WallSub.wf] at hw
      cases o <;>
        simp [WallSub.toks, matchWallSub, boolTok, optTok_take, hw,
          optTok_skip "Opening" rest hr (by decide) (by decide)]
  | opening dd =>
      simp only [WallSub.wf] at hw
      cases dd with
      | none =>
          simp [WallSub.toks, matchWallSub, optD, optDigits_skip rest hr]
      | some d =>
          simp only [wfD] at hw
          simp [WallSub.toks, matchWallSub, optD, optDigits_take, hw]

lemma matchBody_toks (b : Body) (rest : List String) (hb : b.wf = true)
    (hr : BodySafe rest) : matchBody (b.toks ++ rest) = some (b.toks, rest) := by
  cases b with
  | ceilingTrim => simp [Body.toks, matchBody]
  | ceiling dd =>
      simp only [Body.wf] at hb
      cases dd with
      | none => simp [Body.toks, matchBody, optD, optDigits_skip rest hr]
      | some d =>
          simp only [wfD] at hb
          simp [Body.toks, matchBody, optD, optDigits_take, hb]
  | floor s =>
      simp only [Body.wf] at hb
      cases s with
      | none =>
          match rest, hr with
          | [], _ => simp [Body.toks, matchBody]
          | [r1], hr =>
              simp [Body.toks, matchBody]
          | r1 :: r2 :: rr, hr =>
              have h1 := bodySafe_not2d r1 (r2 :: rr) hr
              simp [Body.toks, matchBody, h1]
      | some d =>
          simp only [wfD] at hb
          simp [Body.toks, matchBody, hb]
  | wall st dd sub =>
      simp only [Body.wf, Bool.and_eq_true] at hb
      obtain ⟨hb1, hb2⟩ := hb
      cases sub with
      | none =>
          cases st <;>
            simp [Body.toks, matchBody, hb1, matchWallSub_skip rest hr]
      | some w =>
          have hws := matchWallSub_toks w rest (by
            revert hb2
            simp) hr
          cases st <;>
            simp [Body.toks, matchBody, hb1, hws]
  | wallPanel dd =>
      simp only [Body.wf] at hb
      cases dd with
      | none => simp [Body.toks, matchBody, optD, optDigits_skip rest hr]
      | some d =>
          simp only [wfD] at hb
          simp [Body.toks, matchBody, optD, optDigits_take, hb]
  | post dd =>
      simp only [Body.wf] at hb
      cases dd with
      | none => simp [Body.toks, matchBody, optD, optDigits_skip rest hr]
      | some d =>
          simp only [wfD] at hb
          simp [Body.toks, matchBody, optD, optDigits_take, hb]
  | stairs o dd =>
      simp only [Body.wf] at hb
      cases dd with
      | none =>
          cases o <;>
            simp [Body.toks, matchBody, optD, boolTok, optTok_take,
              optDigits_skip rest hr,
              optTok_skip "Opening" rest hr (by decide) (by decide)]
      | some d =>
          simp only [wfD] at hb
          have hne : d ≠ "Opening" := twoDigit_ne d "Opening" hb (by decide)
          cases o <;>
            simp [Body.toks, matchBody, optD, boolTok, optTok_take,
              optTok_skipOne "Opening" d rest hne, optDigits_take, hb]
  | conduit => simp [Body.toks, matchBody]
  | tubShelf => simp [Body.toks, matchBody]
  | roof dd feat win =>
      simp only [Body.wf, Bool.and_eq_true] at hb
      obtain ⟨⟨hb1, hb2⟩, hb3⟩ := hb
      have h2dw : isTwoDigitTok "Window" = false := by decide
      cases feat with
      | none =>
          cases win with
          | none =>
              cases dd with
              | none =>
                  simp [Body.toks, matchBody, optD, optDigits_skip rest hr,
                    matchRoofFeat_skip rest hr, matchRoofWin_skip rest hr]
              | some d =>
                  simp only [wfD] at hb1
                  simp [Body.toks, matchBody, optD, optDigits_take, hb1,
                    matchRoofFeat_skip rest hr, matchRoofWin_skip rest hr]
          | some q =>
              obtain ⟨wd, o⟩ := q
              simp only at hb3
              cases dd with
              | none =>
                  cases o <;>
                    simp [Body.toks, matchBody, matchRoofWin, optD, boolTok,
                      optDigits_skipOne, h2dw, matchRoofFeat_skipOne, hb3,
                      optTok_take,
                      optTok_skip "Opening" rest hr (by decide) (by decide)]
              | some d =>
                  simp only [wfD] at hb1
                  cases o <;>
                    simp [Body.toks, matchBody, matchRoofWin, optD, boolTok,
                      optDigits_take, hb1, matchRoofFeat_skipOne, hb3,
                      optTok_take,
                      optTok_skip "Opening" rest hr (by decide) (by decide)]
      | some p =>
          obtain ⟨f, fd⟩ := p
          simp only at hb2
          have h2df : isTwoDigitTok f.tok = false := by
            cases f <;> decide
          have hfeatTake : ∀ ts : List String,
              matchRoofFeat (f.tok :: ts)
                = (f.tok :: (optDigits ts).1, (optDigits ts).2) := by
            intro ts
            cases f <;> simp [RoofFeat.tok, matchRoofFeat]
          cases win with
          | none =>
              cases dd with
              | none =>
                  cases fd with
                  | none =>
                      simp [Body.toks, matchBody, optD, hfeatTake,
                        optDigits_skipOne, h2df, optDigits_skip rest hr,
                        matchRoofWin_skip rest hr]
                  | some d2 =>
                      simp only [wfD] at hb2
                      simp [Body.toks, matchBody, optD, hfeatTake,
                        optDigits_skipOne, h2df, optDigits_take, hb2,
                        matchRoofWin_skip rest hr]
              | some d =>
                  simp only [wfD] at hb1
                  cases fd with
                  | none =>
                      simp [Body.toks, matchBody, optD, hfeatTake,
                        optDigits_take, hb1, optDigits_skip rest hr,
                        matchRoofWin_skip rest hr]
                  | some d2 =>
                      simp only [wfD] at hb2
                      simp [Body.toks, matchBody, optD, hfeatTake,
                        optDigits_take, hb1, hb2,
                        matchRoofWin_skip rest hr]
          | some q =>
              obtain ⟨wd, o⟩ := q
              simp only at hb3
              cases dd with
              | none =>
                  cases fd with
                  | none =>
                      cases o <;>
                        simp [Body.toks, matchBody, matchRoofWin, optD, boolTok,
                          hfeatTake, optDigits_skipOne, h2df, h2dw, hb3,
                          optTok_take,
                          optTok_skip "Opening" rest hr (by decide) (by decide)]
                  | some d2 =>
                      simp only [wfD] at hb2
                      cases o <;>
                        simp [Body.toks, matchBody, matchRoofWin, optD, boolTok,
                          hfeatTake, optDigits_skipOne, h2df, optDigits_take,
                          hb2, hb3, optTok_take,
                          optTok_skip "Opening" rest hr (by decide) (by decide)]
              | some d =>
                  simp only [wfD] at hb1
                  cases fd with
                  | none =>
                      cases o <;>
                        simp [Body.toks, matchBody, matchRoofWin, optD, boolTok,
                          hfeatTake, optDigits_take, hb1, optDigits_skipOne,
                          h2dw, hb3, optTok_take,
                          optTok_skip "Opening" rest hr (by decide) (by decide)]
                  | some d2 =>
                      simp only [wfD] at hb2
                      cases o <;>
                        simp [Body.toks, matchBody, matchRoofWin, optD, boolTok,
                          hfeatTake, optDigits_take, hb1, hb2, hb3,
                          optTok_take,
                          optTok_skip "Opening" rest hr (by decide) (by decide)]

/-- Every body's token list starts with a keyword that is not two digits,
is not `Closet`, and is `Conduit` only for the bare conduit body. -/
lemma body_head_info (b : Body) : ∃ t ts, b.toks = t :: ts
    ∧ isTwoDigitTok t = false ∧ t ≠ "Closet"
    ∧ (t = "Conduit" → b = Body.conduit) := by
  cases b with
  | ceilingTrim => exact ⟨"CeilingTrim", _, rfl, by decide, by decide, by decide⟩
  | ceiling dd =>
      exact ⟨"Ceiling", _, rfl, by decide, by decide,
        fun h => absurd h (by decide)⟩
  | floor s =>
      exact ⟨"Floor", _, rfl, by decide, by decide,
        fun h => absurd h (by decide)⟩
  | wall st dd sub =>
      cases st with
      | true =>
          exact ⟨"StairWall", _, rfl, by decide, by decide,
            fun h => absurd h (by decide)⟩
      | false =>
          exact ⟨"Wall", _, rfl, by decide, by decide,
            fun h => absurd h (by decide)⟩
  | wallPanel dd =>
      exact ⟨"WallPanel", _, rfl, by decide, by decide,
        fun h => absurd h (by decide)⟩
  | roof dd feat win =>
      exact ⟨"Roof", _, rfl, by decide, by decide,
        fun h => absurd h (by decide)⟩
  | post dd =>
      exact ⟨"Post", _, rfl, by decide, by decide,
        fun h => absurd h (by decide)⟩
  | stairs o dd =>
      exact ⟨"Stairs", _, rfl, by decide, by decide,
        fun h => absurd h (by decide)⟩
  | conduit => exact ⟨"Conduit", _, rfl, by decide, by decide, fun _ => rfl⟩
  | tubShelf => exact ⟨"Tub", _, rfl, by decide, by decide, by decide⟩

/-- Consuming an optional `Closet` prefix plus a well-formed body. -/
lemma matchClosetBody_toks (closet : Bool) (b : Body) (rest : List String)
    (hb : b.wf = true) (hr : BodySafe rest) :
    matchClosetBody ((if closet then ["Closet"] else []) ++ b.toks ++ rest)
      = some ((if closet then ["Closet"] else []) ++ b.toks, rest) := by
  cases closet with
  | true =>
      simp [matchClosetBody, matchBody_toks b rest hb hr]
  | false =>
      obtain ⟨t, ts, hts, _, hcl, _⟩ := body_head_info b
      have hm := matchBody_toks b rest hb hr
      rw [hts] at hm ⊢
      simp only [List.nil_append, List.cons_append] at hm ⊢
      simp [matchClosetBody, hcl, hm]

lemma matchG1_of_head_ne (t : String) (tail : List String) (h : t ≠ "Conduit") :
    matchG1 (t :: tail) = matchConduitNoDigits (t :: tail) := by
  cases tail with
  | nil => rfl
  | cons d r => simp [matchG1, h]

/-- The conduit/closet prefix tokens of an element. -/
def Elem.preToks (e : Elem) : List String :=
  (match e.conduitPre with | none => [] | some dd => "Conduit" :: optD dd)
    ++ (if e.closetPre then ["Closet"] else [])

/-- The placeholder suffix tokens of an element. -/
def Elem.placToks (e : Elem) : List String :=
  match e.plac with | none => [] | some dd => "Placeholder" :: optD dd

/-- The element core: prefix plus body, everything before the placeholder. -/
def Elem.coreToks (e : Elem) : List String :=
  e.preToks ++ e.body.toks

lemma elem_toks_decomp (e : Elem) : e.toks = e.coreToks ++ e.placToks := by
  simp [Elem.toks, Elem.coreToks, Elem.preToks, Elem.placToks,
    List.append_assoc]

/-- Specialization of `matchClosetBody_toks` with the `Closet` prefix. -/
lemma matchClosetBody_toks_true (b : Body) (rest : List String)
    (hb : b.wf = true) (hr : BodySafe rest) :
    matchClosetBody ("Closet" :: (b.toks ++ rest))
      = some ("Closet" :: b.toks, rest) := by
  simpa using matchClosetBody_toks true b rest hb hr

/-- Specialization of `matchClosetBody_toks` without the `Closet` prefix. -/
lemma matchClosetBody_toks_false (b : Body) (rest : List String)
    (hb : b.wf = true) (hr : BodySafe rest) :
    matchClosetBody (b.toks ++ rest) = some (b.toks, rest) := by
  simpa using matchClosetBody_toks false b rest hb hr

/-- `matchG1` consumes exactly the core tokens of a well-formed element when
what follows is body-safe. -/
lemma matchG1_toks (e : Elem) (rest : List String) (he : e.wf = true)
    (hr : BodySafe rest) :
    matchG1 (e.coreToks ++ rest) = some (e.coreToks, rest) := by
  obtain ⟨cp, cl, b, pl⟩ := e
  simp only [Elem.wf, Bool.and_eq_true] at he
  obtain ⟨⟨hcp, hbw⟩, _⟩ := he
  simp only [Elem.coreToks, Elem.preToks]
  cases cp with
  | some dd =>
      cases dd with
      | some d =>
          simp only [wfD] at hcp
          cases cl with
          | true =>
              show matchG1 ("Conduit" :: d :: "Closet" :: (b.toks ++ rest))
                = some ("Conduit" :: d :: "Closet" :: b.toks, rest)
              simp only [matchG1]
              rw [if_pos ⟨trivial, hcp⟩, matchClosetBody_toks_true b rest hbw hr]
          | false =>
              obtain ⟨t, ts, hts, _, _, _⟩ := body_head_info b
              have hcb := matchClosetBody_toks_false b rest hbw hr
              rw [hts] at hcb ⊢
              simp only [List.cons_append] at hcb
              show matchG1 ("Conduit" :: d :: t :: (ts ++ rest))
                = some ("Conduit" :: d :: t :: ts, rest)
              simp only [matchG1]
              rw [if_pos ⟨trivial, hcp⟩, hcb]
      | none =>
          cases cl with
          | true =>
              show matchG1 ("Conduit" :: "Closet" :: (b.toks ++ rest))
                = some ("Conduit" :: "Closet" :: b.toks, rest)
              simp only [matchG1]
              rw [if_neg (fun hc => absurd hc.2 (by decide))]
              simp only [matchConduitNoDigits]
              rw [if_pos trivial, matchClosetBody_toks_true b rest hbw hr]
          | false =>
              obtain ⟨t, ts, hts, h2d, _, _⟩ := body_head_info b
              have hcb := matchClosetBody_toks_false b rest hbw hr
              rw [hts] at hcb ⊢
              simp only [List.cons_append] at hcb
              show matchG1 ("Conduit" :: t :: (ts ++ rest))
                = some ("Conduit" :: t :: ts, rest)
              simp only [matchG1]
              rw [if_neg (by
                intro hc
                rw [h2d] at hc
                exact absurd hc.2 (by decide))]
              simp only [matchConduitNoDigits]
              rw [if_pos trivial, hcb]
  | none =>
      cases cl with
      | true =>
          obtain ⟨t, ts, hts, _, _, _⟩ := body_head_info b
          have hcb := matchClosetBody_toks_true b rest hbw hr
          rw [hts] at hcb ⊢
          simp only [List.cons_append] at hcb
          show matchG1 ("Closet" :: t :: (ts ++ rest))
            = some ("Closet" :: t :: ts, rest)
          simp only [matchG1]
          rw [if_neg (fun hc => absurd hc.1 (by decide))]
          simp only [matchConduitNoDigits]
          rw [if_neg (by decide)]
          exact hcb
      | false =>
          obtain ⟨t, ts, hts, h2d, hclne, hcond⟩ := body_head_info b
          by_cases hc : t = "Conduit"
          · have hb' : b = Body.conduit := hcond hc
            subst hb'
            cases rest with
            | nil =>
                show matchG1 ["Conduit"] = some (["Conduit"], [])
                rfl
            | cons g r2 =>
                have hg := bodySafe_not2d g r2 hr
                have hmb : matchBody ("Conduit" :: g :: r2)
                    = some (["Conduit"], g :: r2) := by
                  simpa [Body.toks] using
                    matchBody_toks Body.conduit (g :: r2) rfl hr
                show matchG1 ("Conduit" :: g :: r2)
                  = some (["Conduit"], g :: r2)
                simp only [matchG1]
                rw [if_neg (by
                  intro hc2
                  rw [hg] at hc2
                  exact absurd hc2.2 (by decide))]
                simp only [matchConduitNoDigits]
                rw [if_pos trivial, matchClosetBody_none (g :: r2) hr]
                simp only [matchClosetBody]
                rw [if_neg (by decide)]
                exact hmb
          · have hcb := matchClosetBody_toks_false b rest hbw hr
            rw [hts] at hcb ⊢
            simp only [List.cons_append] at hcb
            show matchG1 (t :: (ts ++ rest)) = some (t :: ts, rest)
            rw [matchG1_of_head_ne t (ts ++ rest) hc]
            simp only [matchConduitNoDigits]
            rw [if_neg hc]
            exact hcb

/-- Consuming the optional placeholder suffix of a well-formed element. -/
lemma matchPlac_toks (e : Elem) (rest : List String)
    (hw : (match e.plac with | none => true | some dd => wfD dd) = true)
    (hr : SafeHead rest) :
    matchPlac (e.placToks ++ rest) = (e.placToks, rest) := by
  cases hp : e.plac with
  | none =>
      simpa [Elem.placToks, hp] using matchPlac_skip rest hr
  | some dd =>
      rw [hp] at hw
      cases dd with
      | none =>
          simp [Elem.placToks, hp, optD, matchPlac,
            optDigits_skip rest (safeHead_bodySafe rest hr)]
      | some d =>
          simp only [wfD] at hw
          simp [Elem.placToks, hp, optD, matchPlac, optDigits_take, hw]

/-- `matchElement` consumes exactly the tokens of a well-formed element when
what follows is safe (empty or a non-structural garbage token). -/
lemma matchElement_toks (e : Elem) (rest : List String) (he : e.wf = true)
    (hr : SafeHead rest) :
    matchElement (e.toks ++ rest) = some (e.toks, rest) := by
  have hpw : (match e.plac with | none => true | some dd => wfD dd) = true := by
    have he' := he
    simp only [Elem.wf, Bool.and_eq_true] at he'
    exact he'.2
  have hbs : BodySafe (e.placToks ++ rest) := by
    cases hp : e.plac with
    | none =>
        simpa [Elem.placToks, hp] using safeHead_bodySafe rest hr
    | some dd =>
        simp only [Elem.placToks, hp, List.cons_append]
        exact Or.inr rfl
  rw [elem_toks_decomp, List.append_assoc]
  simp [matchElement, matchG1_toks e (e.placToks ++ rest) he hbs,
    matchPlac_toks e rest hpw hr]

lemma twoDigit_no_underscore (d : String) (h : isTwoDigitTok d = true) :
    '_' ∉ d.data := by
  intro hm
  have h' : (match d.data with
      | [a, b] => a.isDigit && b.isDigit
      | _ => false) = true := h
  rcases hdd : d.data with _ | ⟨a, _ | ⟨b, _ | ⟨c, tl⟩⟩⟩
  · rw [hdd] at h'
    simp at h'
  · rw [hdd] at h'
    simp at h'
  · rw [hdd] at h'
    simp only [Bool.and_eq_true] at h'
    rw [hdd] at hm
    simp only [List.mem_cons, List.not_mem_nil, or_false] at hm
    rcases hm with rfl | rfl
    · exact absurd h'.1 (by decide)
    · exact absurd h'.2 (by decide)
  · rw [hdd] at h'
    simp at h'

lemma structural_no_underscore (t : String) (h : isStructuralTok t = true) :
    '_' ∉ t.data := by
  simp only [isStructuralTok, Bool.or_eq_true] at h
  rcases h with h | h
  · have hmem : t ∈ structuralToks := by simpa using h
    fin_cases hmem <;> decide
  · exact twoDigit_no_underscore t h

lemma optD_structural (dd : Option String) (h : wfD dd = true) :
    ∀ t ∈ optD dd, isStructuralTok t = true := by
  cases dd with
  | none =>
      intro t ht
      simp [optD] at ht
  | some d =>
      simp only [wfD] at h
      intro t ht
      simp only [optD, List.mem_singleton] at ht
      subst ht
      simp [isStructuralTok, h]

lemma boolTok_structural (b : Bool) (kw : String)
    (hk : structuralToks.contains kw = true) :
    ∀ t ∈ boolTok b kw, isStructuralTok t = true := by
  cases b with
  | false =>
      intro t ht
      simp [boolTok] at ht
  | true =>
      intro t ht
      simp only [boolTok, if_true] at ht
      simp only [List.mem_singleton] at ht
      subst ht
      simp only [isStructuralTok, hk, Bool.true_or]

lemma wallSub_structural (w : WallSub) (hw : w.wf = true) :
    ∀ t ∈ w.toks, isStructuralTok t = true := by
  cases w with
  | moulding c r =>
      intro t ht
      cases c <;> cases r <;> simp [WallSub.toks] at ht <;>
        rcases ht with rfl | rfl | rfl <;> decide
  | window g dd o =>
      simp only [WallSub.wf] at hw
      intro t ht
      simp only [WallSub.toks, List.mem_cons, List.mem_append] at ht
      rcases ht with rfl | ht | ht
      · cases g <;> decide
      · exact optD_structural dd hw t ht
      · exact boolTok_structural o "Opening" (by decide) t ht
  | door dd o =>
      simp only [WallSub.wf] at hw
      intro t ht
      simp only [WallSub.toks, List.mem_cons] at ht
      rcases ht with rfl | rfl | ht
      · decide
      · simp [isStructuralTok, hw]
      · exact boolTok_structural o "Opening" (by decide) t ht
  | opening dd =>
      simp only [WallSub.wf] at hw
      intro t ht
      simp only [WallSub.toks, List.mem_cons] at ht
      rcases ht with rfl | ht
      · decide
      · exact optD_structural dd hw t ht

lemma body_structural (b : Body) (hb : b.wf = true) :
    ∀ t ∈ b.toks, isStructuralTok t = true := by
  cases b with
  | ceilingTrim =>
      intro t ht
      simp only [Body.toks, List.mem_singleton] at ht
      subst ht
      decide
  | ceiling dd =>
      simp only [Body.wf] at hb
      intro t ht
      simp only [Body.toks, List.mem_cons] at ht
      rcases ht with rfl | ht
      · decide
      · exact optD_structural dd hb t ht
  | floor s =>
      simp only [Body.wf] at hb
      intro t ht
      cases s with
      | none =>
          simp only [Body.toks, List.mem_singleton] at ht
          subst ht
          decide
      | some d =>
          simp only [wfD] at hb
          simp only [Body.toks, List.mem_cons, List.not_mem_nil, or_false] at ht
          rcases ht with rfl | rfl | rfl
          · decide
          · simp [isStructuralTok, hb]
          · decide
  | wall st dd sub =>
      simp only [Body.wf, Bool.and_eq_true] at hb
      obtain ⟨hb1, hb2⟩ := hb
      intro t ht
      simp only [Body.toks, List.mem_cons] at ht
      rcases ht with rfl | rfl | ht
      · cases st <;> decide
      · simp [isStructuralTok, hb1]
      · cases sub with
        | none => simp at ht
        | some w =>
            have ht' : t ∈ w.toks := ht
            have hw' : w.wf = true := hb2
            exact wallSub_structural w hw' t ht'
  | wallPanel dd =>
      simp only [Body.wf] at hb
      intro t ht
      simp only [Body.toks, List.mem_cons] at ht
      rcases ht with rfl | ht
      · decide
      · exact optD_structural dd hb t ht
  | roof dd feat win =>
      simp only [Body.wf, Bool.and_eq_true] at hb
      obtain ⟨⟨hb1, hb2⟩, hb3⟩ := hb
      intro t ht
      simp only [Body.toks, List.mem_cons, List.mem_append] at ht
      rcases ht with rfl | ((ht | ht) | ht)
      · decide
      · exact optD_structural dd hb1 t ht
      · cases feat with
        | none => simp at ht
        | some p =>
            obtain ⟨f, fd⟩ := p
            have ht' : t ∈ f.tok :: optD fd := ht
            have hfd : wfD fd = true := hb2
            rcases List.mem_cons.mp ht' with rfl | ht2
            · cases f <;> decide
            · exact optD_structural fd hfd t ht2
      · cases win with
        | none => simp at ht
        | some q =>
            obtain ⟨wd, o⟩ := q
            have ht' : t ∈ "Window" :: wd :: boolTok o "Opening" := ht
            have hwd : isTwoDigitTok wd = true := hb3
            rcases List.mem_cons.mp ht' with rfl | ht2
            · decide
            · rcases List.mem_cons.mp ht2 with rfl | ht3
              · simp [isStructuralTok, hwd]
              · exact boolTok_structural o "Opening" (by decide) t ht3
  | post dd =>
      simp only [Body.wf] at hb
      intro t ht
      simp only [Body.toks, List.mem_cons] at ht
      rcases ht with rfl | ht
      · decide
      · exact optD_structural dd hb t ht
  | stairs o dd =>
      simp only [Body.wf] at hb
      intro t ht
      simp only [Body.toks, List.mem_cons, List.mem_append] at ht
      rcases ht with rfl | ht | ht
      · decide
      · exact boolTok_structural o "Opening" (by decide) t ht
      · exact optD_structural dd hb t ht
  | conduit =>
      intro t ht
      simp only [Body.toks, List.mem_singleton] at ht
      subst ht
      decide
  | tubShelf =>
      intro t ht
      simp only [Body.toks, List.mem_cons, List.not_mem_nil, or_false] at ht
      rcases ht with rfl | rfl <;> decide

/-- Every token of a well-formed element is structural. -/
lemma elem_toks_structural (e : Elem) (he : e.wf = true) :
    ∀ t ∈ e.toks, isStructuralTok t = true := by
  obtain ⟨cp, cl, b, pl⟩ := e
  simp only [Elem.wf, Bool.and_eq_true] at he
  obtain ⟨⟨hcp, hbw⟩, hpl⟩ := he
  intro t ht
  simp only [Elem.toks, List.mem_append] at ht
  rcases ht with ((ht | ht) | ht) | ht
  · cases cp with
    | none => simp at ht
    | some dd =>
        have ht' : t ∈ "Conduit" :: optD dd := ht
        have hcp' : wfD dd = true := hcp
        rcases List.mem_cons.mp ht' with rfl | ht2
        · decide
        · exact optD_structural dd hcp' t ht2
  · cases cl with
    | false => simp at ht
    | true =>
        have ht' : t ∈ ["Closet"] := ht
        simp only [List.mem_singleton] at ht'
        subst ht'
        decide
  · exact body_structural b hbw t ht
  · cases pl with
    | none => simp at ht
    | some dd =>
        have ht' : t ∈ "Placeholder" :: optD dd := ht
        have hpl' : wfD dd = true := hpl
        rcases List.mem_cons.mp ht' with rfl | ht2
        · decide
        · exact optD_structural dd hpl' t ht2

/-- The token list of an element is never empty. -/
lemma elem_toks_ne_nil (e : Elem) : e.toks ≠ [] := by
  obtain ⟨t, ts, hts, _, _, _⟩ := body_head_info e.body
  have hmem : t ∈ e.toks := by
    simp only [Elem.toks]
    refine List.mem_append.mpr (Or.inl ?h)
    refine List.mem_append.mpr (Or.inr ?h2)
    rw [hts]
    exact List.mem_cons_self _ _
  exact List.ne_nil_of_mem hmem

/-! ### Splitting the rendered name back into tokens -/

lemma splitU_cons_under (cs rest : List Char) (h : '_' ∉ cs) :
    splitU (cs ++ '_' :: rest) = (⟨cs⟩ : String) :: splitU rest := by
  induction cs with
  | nil =>
      simp [splitU]
  | cons c cs ih =>
      have hc : c ≠ '_' := by
        intro hh
        subst hh
        exact h (List.mem_cons_self _ _)
      have h' : '_' ∉ cs := fun hm => h (List.mem_cons_of_mem c hm)
      simp only [List.cons_append, splitU, List.append_eq]
      rw [if_neg hc, ih h']

lemma splitU_no_under (cs : List Char) (h : '_' ∉ cs) :
    splitU cs = [(⟨cs⟩ : String)] := by
  induction cs with
  | nil => rfl
  | cons c cs ih =>
      have hc : c ≠ '_' := by
        intro hh
        subst hh
        exact h (List.mem_cons_self _ _)
      have h' : '_' ∉ cs := fun hm => h (List.mem_cons_of_mem c hm)
      simp only [splitU]
      rw [if_neg hc, ih h']

lemma splitU_joinU_suffix (toks : List String) (hne : toks ≠ [])
    (h : ∀ t ∈ toks, '_' ∉ t.data) (rest : List Char) :
    splitU ((joinU toks).data ++ '_' :: rest) = toks ++ splitU rest := by
  induction toks with
  | nil => exact absurd rfl hne
  | cons t ts ih =>
      cases ts with
      | nil =>
          simp only [joinU]
          rw [splitU_cons_under t.data rest (h t (List.mem_cons_self _ _))]
          rfl
      | cons t2 ts2 =>
          have ht : '_' ∉ t.data := h t (List.mem_cons_self _ _)
          have hrest : ∀ u ∈ t2 :: ts2, '_' ∉ u.data :=
            fun u hu => h u (List.mem_cons_of_mem t hu)
          have hdata : (t ++ "_" ++ joinU (t2 :: ts2)).data
              = t.data ++ '_' :: (joinU (t2 :: ts2)).data := by
            simp [String.data_append]
          simp only [joinU]
          rw [hdata, List.append_assoc, List.cons_append,
            splitU_cons_under t.data _ ht, ih (by simp) hrest]
          rfl

lemma splitU_joinU (toks : List String) (hne : toks ≠ [])
    (h : ∀ t ∈ toks, '_' ∉ t.data) :
    splitU (joinU toks).data = toks := by
  induction toks with
  | nil => exact absurd rfl hne
  | cons t ts ih =>
      cases ts with
      | nil =>
          simp only [joinU]
          exact splitU_no_under t.data (h t (List.mem_cons_self _ _))
      | cons t2 ts2 =>
          have ht : '_' ∉ t.data := h t (List.mem_cons_self _ _)
          have hrest : ∀ u ∈ t2 :: ts2, '_' ∉ u.data :=
            fun u hu => h u (List.mem_cons_of_mem t hu)
          have hdata : (t ++ "_" ++ joinU (t2 :: ts2)).data
              = t.data ++ '_' :: (joinU (t2 :: ts2)).data := by
            simp [String.data_append]
          simp only [joinU]
          rw [hdata, splitU_cons_under t.data _ ht, ih (by simp) hrest]

lemma splitU_name (room : String) (toks : List String) (hr : '_' ∉ room.data)
    (hne : toks ≠ []) (h : ∀ t ∈ toks, '_' ∉ t.data) :
    splitU ("SM_" ++ room ++ "_" ++ joinU toks).data
      = "SM" :: room :: toks := by
  have e1 : ("SM_" ++ room ++ "_" ++ joinU toks).data
      = ['S', 'M'] ++ '_' :: (room.data ++ '_' :: (joinU toks).data) := by
    show ((['S', 'M', '_'] ++ room.data) ++ ['_']) ++ (joinU toks).data = _
    simp [List.append_assoc]
  rw [e1, splitU_cons_under ['S', 'M'] _ (by decide),
    splitU_cons_under room.data _ hr, splitU_joinU toks hne h]

lemma splitU_name_garbage (room : String) (toks : List String) (g : String)
    (hr : '_' ∉ room.data) (hne : toks ≠ []) (h : ∀ t ∈ toks, '_' ∉ t.data)
    (hg : '_' ∉ g.data) :
    splitU ("SM_" ++ room ++ "_" ++ joinU toks ++ "_" ++ g).data
      = "SM" :: room :: (toks ++ [g]) := by
  have e1 : ("SM_" ++ room ++ "_" ++ joinU toks ++ "_" ++ g).data
      = ['S', 'M'] ++ '_' :: (room.data ++ '_'
          :: ((joinU toks).data ++ '_' :: g.data)) := by
    show ((((['S', 'M', '_'] ++ room.data) ++ ['_']) ++ (joinU toks).data)
        ++ ['_']) ++ g.data = _
    simp [List.append_assoc]
  rw [e1, splitU_cons_under ['S', 'M'] _ (by decide),
    splitU_cons_under room.data _ hr,
    splitU_joinU_suffix toks hne h g.data, splitU_no_under g.data hg]

/-- C1: for every canonical name `SM_<Room>_<Element>` produced by the
naming grammar (any well-formed element, any room without underscores),
the element regex recovers the room and the element exactly with no
garbage group; and appending `_<g>` for a non-structural garbage token `g`
recovers the same room and element with the garbage group equal to
`"_" ++ g` — the match consumes the whole structural token list, so
structural numeric suffixes are never classified as garbage. -/
theorem parse_canonical (room g : String) (e : Elem)
    (hroom : room ≠ "" ∧ '_' ∉ room.data) (he : e.wf = true)
    (hg1 : '_' ∉ g.data) (hg2 : isStructuralTok g = false) :
    parse ("SM_" ++ room ++ "_" ++ joinU e.toks)
        = some ⟨room, some (joinU e.toks), none⟩
      ∧ parse ("SM_" ++ room ++ "_" ++ joinU e.toks ++ "_" ++ g)
        = some ⟨room, some (joinU e.toks), some ("_" ++ g)⟩ := by
  have hnu : ∀ t ∈ e.toks, '_' ∉ t.data :=
    fun t ht => structural_no_underscore t (elem_toks_structural e he t ht)
  have hne := elem_toks_ne_nil e
  constructor
  · show parseToks (splitU ("SM_" ++ room ++ "_" ++ joinU e.toks).data) = _
    rw [splitU_name room e.toks hroom.2 hne hnu]
    have hME : matchElement e.toks = some (e.toks, []) := by
      simpa using matchElement_toks e [] he trivial
    simp [parseToks, hroom.1, hne, hME]
  · show parseToks
        (splitU ("SM_" ++ room ++ "_" ++ joinU e.toks ++ "_" ++ g).data) = _
    rw [splitU_name_garbage room e.toks g hroom.2 hne hnu hg1]
    have hg2' : SafeHead [g] := hg2
    have hMEg : matchElement (e.toks ++ [g]) = some (e.toks, [g]) :=
      matchElement_toks e [g] he hg2'
    simp [parseToks, hroom.1, hMEg, joinU]

/-- Witness: a concrete canonical wall name with a window opening, with and
without a trailing non-structural garbage token `0c`. -/
theorem parse_canonical_witness :
    (parse ("SM_" ++ "BackPorch" ++ "_"
        ++ joinU (Elem.toks ⟨none, false,
            Body.wall false "01" (some (WallSub.window false (some "01") true)),
            none⟩))
      = some ⟨"BackPorch",
          some (joinU (Elem.toks ⟨none, false,
            Body.wall false "01" (some (WallSub.window false (some "01") true)),
            none⟩)), none⟩)
    ∧ (parse ("SM_" ++ "BackPorch" ++ "_"
        ++ joinU (Elem.toks ⟨none, false,
            Body.wall false "01" (some (WallSub.window false (some "01") true)),
            none⟩) ++ "_" ++ "0c")
      = some ⟨"BackPorch",
          some (joinU (Elem.toks ⟨none, false,
            Body.wall false "01" (some (WallSub.window false (some "01") true)),
            none⟩)), some ("_" ++ "0c")⟩) :=
  parse_canonical "BackPorch" "0c"
    ⟨none, false, Body.wall false "01" (some (WallSub.window false (some "01") true)),
      none⟩
    ⟨by decide, by decide⟩ (by decide) (by decide) (by decide)

end LiveHome
